import Mathlib

/-!
Verification of the `rscanner` reverse line scanner (`src/reverse_scanner.go`).

The Go code is shallowly embedded: byte slices become `List Nat`, Go `error`
values become an inductive type, the `io.ReaderAt` source becomes a function
from (call index, offset, requested length) to (reported count, error, bytes
written), and the two loops inside `Scanner.Scan` (the inner read loop and the
outer split loop) become fuel-indexed recursions returning `Option` (`none`
means the fuel ran out, which never happens for adequate fuel).
-/

namespace RScanner

/-- Byte strings are modelled as lists of byte values. -/
abbrev ByteList := List Nat

/-- Go `error` values relevant to the scanner: the four exported sentinel
errors, `io.ErrNoProgress`, and arbitrary caller-supplied errors (from a
custom split function or from the source's `ReadAt`), tagged by a code. -/
inductive GoErr where
  | tooLong
  | negativeAdvance
  | advanceTooFar
  | badReadCount
  | noProgress
  | custom (code : Nat)
deriving DecidableEq

/-- Ghost bookkeeping: which failure branch of `Scan` recorded the sticky
error.  This does not exist in the Go code; it only tags the `setErr` call
sites so that reachability of individual failure branches can be stated. -/
inductive AbortReason where
  | readErr
  | badCount
  | noProgress
  | splitErr
  | negAdv
  | advFar
  | tooLong
deriving DecidableEq

/-- A split function, as in Go: `func(data []byte) (advance int, token []byte, err error)`.
`advance` is an `Int` because Go allows a misbehaving split function to
return a negative advance; `token = none` models a nil token slice. -/
abbrev SplitFunc := ByteList → Int × Option ByteList × Option GoErr

/-- The behaviour of an `io.ReaderAt` source.  A call is
`src callIndex offset requestedLen = (reported n, error, bytes written)`.
The reported count is an `Int` (a misbehaving reader may report a negative
count); the bytes actually deposited into the destination slice are the given
list truncated to the requested length. -/
abbrev SourceBehavior := Nat → Nat → Nat → Int × Option GoErr × ByteList

/-- Go slice `l[a : a+n]`. -/
def slice (l : ByteList) (a n : Nat) : ByteList := (l.drop a).take n

/-- Overwrite `buf` starting at position `pos` with `w`, truncated so the
result keeps the length of `buf`; models Go's `copy` into a subslice of
`buf` (and a reader writing into such a subslice). -/
def writeAt (buf : ByteList) (pos : Nat) (w : ByteList) : ByteList :=
  buf.take pos ++ w.take (buf.length - pos) ++ buf.drop (pos + w.length)

/-- Whether a byte is one of the line-terminator bytes of the cutset
`"\r\n"` used by the Go code (13 = CR, 10 = LF). -/
def isTerm (b : Nat) : Bool := b == 13 || b == 10

/-- Drop leading cutset bytes. -/
def trimLeftTerm : ByteList → ByteList
  | [] => []
  | b :: t => if isTerm b then trimLeftTerm t else b :: t

/-- Drop trailing cutset bytes. -/
def trimRightTerm (l : ByteList) : ByteList := (trimLeftTerm l.reverse).reverse

/-- Go `bytes.Trim(l, "\r\n")`.  Go's `bytes.Trim` returns a nil slice when
the input is empty or every byte is trimmed, and a non-nil subslice
otherwise; `none` models the nil result. -/
def bytesTrim (l : ByteList) : Option ByteList :=
  let r := trimLeftTerm (trimRightTerm l)
  if r.isEmpty then none else some r

/-- Go `bytes.LastIndexByte(l, c)`: index of the last occurrence of `c`,
`none` when absent (Go returns -1). -/
def lastIndexByte : ByteList → Nat → Option Nat
  | [], _ => none
  | b :: t, c =>
    match lastIndexByte t c with
    | some i => some (i + 1)
    | none => if b = c then some 0 else none

/-- The default split function `ScanLines`: find the right-most LF; if found
at index `i`, advance to `i` and return `data[i:]` trimmed of CR/LF at both
ends; otherwise request more data with `(0, nil, nil)`. -/
def ScanLines (data : ByteList) : Int × Option ByteList × Option GoErr :=
  match lastIndexByte data 10 with
  | some i => ((i : Int), bytesTrim (data.drop i), none)
  | none => (0, none, none)

def defaultBufSize : Nat := 4096

def defaultMaxConsecutiveEmptyReads : Nat := 100

/-- `bufio.MaxScanTokenSize = 64 * 1024`. -/
def bufioMaxScanTokenSize : Nat := 65536

/-- `math.MaxInt` on a 64-bit platform. -/
def goMaxInt : Nat := 9223372036854775807

/-- The scanner state.  Fields mirror the Go struct; `reads` is a ghost
counter of issued `ReadAt` calls (it also serves as the call index handed to
the source behaviour), and `lastAbort` is the ghost failure-branch tag. -/
structure Scanner where
  maxTokenSize : Nat
  token : Option ByteList
  buf : ByteList
  bufSize : Nat
  start : Nat
  end_ : Nat
  rOffset : Nat
  split : SplitFunc
  err : Option GoErr
  done : Bool
  scanCalled : Bool
  maxConsecutiveEmptyReads : Nat
  reads : Nat
  lastAbort : Option AbortReason

/-- `NewScanner(r, readerSize)`. -/
def NewScanner (readerSize : Nat) : Scanner :=
  let bufSize := if readerSize < defaultBufSize then readerSize else defaultBufSize
  { bufSize := bufSize
    maxTokenSize := bufioMaxScanTokenSize
    split := ScanLines
    start := bufSize
    end_ := bufSize
    rOffset := readerSize
    token := none
    buf := []
    err := none
    done := false
    scanCalled := false
    maxConsecutiveEmptyReads := defaultMaxConsecutiveEmptyReads
    reads := 0
    lastAbort := none }

/-- `setErr`: record the first error only (sticky). The ghost tag records the
branch that set it. -/
def Scanner.setErr (s : Scanner) (e : GoErr) (reason : AbortReason) : Scanner :=
  if s.err = none then { s with err := some e, lastAbort := some reason } else s

/-- `decreaseOffset`: decrement the reader offset, floored at 0 (Nat
subtraction models the explicit clamp in the Go code). -/
def Scanner.decreaseOffset (s : Scanner) (n : Nat) : Scanner :=
  { s with rOffset := s.rOffset - n }

/-- Result of the inner read loop. -/
inductive FillRes where
  | ok (buf : ByteList) (calls : Nat)
  | fail (e : GoErr) (reason : AbortReason) (buf : ByteList) (calls : Nat)

/-- The inner read loop of `Scan`: fill `buf[left:target)` by repeated
`ReadAt` calls at increasing offsets, counting empty reads.  Mirrors the Go
loop exactly, including the misbehaviour check `n < 0 || n > bs.start`
(compared against the whole fill target, not the requested slice length).
Fuel-indexed; `none` means the fuel ran out. -/
def fillLoop (src : SourceBehavior) (target maxEmpty : Nat) :
    Nat → ByteList → Nat → Nat → Nat → Nat → Option FillRes
  | 0, _, _, _, _, _ => none
  | fuel + 1, buf, left, emptyReads, off, calls =>
    if left < target then
      let r := src calls off (target - left)
      let n : Int := r.1
      let buf' := writeAt buf left (r.2.2.take (target - left))
      if n < 0 || n > (target : Int) then
        some (.fail GoErr.badReadCount .badCount buf' (calls + 1))
      else
        match r.2.1 with
        | some e => some (.fail e .readErr buf' (calls + 1))
        | none =>
          let er' := if n = 0 then emptyReads + 1 else emptyReads
          if er' > maxEmpty then
            some (.fail GoErr.noProgress .noProgress buf' (calls + 1))
          else
            fillLoop src target maxEmpty fuel buf' (left + n.toNat) er' (off + n.toNat) (calls + 1)
    else some (.ok buf calls)

/-- The loading step of one `Scan` iteration: if `start > 0`, decrease the
reader offset, allocate the buffer if empty, and run the read loop.
`inl` is an early `return false` with the error recorded; `inr` is the
state in which the split function is consulted next. -/
def scanFillPhase (src : SourceBehavior) (s : Scanner) : Option ((Bool × Scanner) ⊕ Scanner) :=
  if s.start > 0 then
    let s1 := s.decreaseOffset s.start
    let buf0 := if s1.buf.length = 0 then List.replicate s1.bufSize 0 else s1.buf
    match fillLoop src s1.start s1.maxConsecutiveEmptyReads
        (s1.start + s1.maxConsecutiveEmptyReads + 2) buf0 0 0 s1.rOffset s1.reads with
    | some (.ok buf calls) => some (.inr { s1 with buf := buf, reads := calls, start := 0 })
    | some (.fail e reason buf calls) =>
        some (.inl (false, ({ s1 with buf := buf, reads := calls }).setErr e reason))
    | none => none
  else some (.inr s)

/-- Result of the split-and-dispatch part of one `Scan` iteration. -/
inductive StepRes where
  | result (b : Bool) (s : Scanner)
  | loop (s : Scanner)

/-- The compaction move (first half of the growth/compaction block in
`Scan`): when the live window sits in the left half of the buffer, shift it
rightward by `d = min(bufSize - end, rOffset)` bytes in place. -/
def compactIfNeeded (s : Scanner) : Scanner :=
  if s.end_ < s.bufSize / 2 then
    let d := min (s.bufSize - s.end_) s.rOffset
    { s with buf := writeAt s.buf (s.start + d) (slice s.buf s.start (s.end_ - s.start)),
             start := s.start + d, end_ := s.end_ + d }
  else s

/-- The growth move (second half of the growth/compaction block in `Scan`):
double the buffer (starting from the default size when it was empty), capped
at `maxTokenSize`, copying the window to the right-aligned end of the new
buffer and re-deriving the indices exactly as the Go code does
(`start = newSize - bufSize`, `end = newSize`). -/
def growBuffer (s : Scanner) : Scanner :=
  let newSize0 := s.bufSize * 2
  let newSize1 := if newSize0 = 0 then defaultBufSize else newSize0
  let newSize := if newSize1 > s.maxTokenSize then s.maxTokenSize else newSize1
  { s with buf := writeAt (List.replicate newSize 0)
             (newSize - (s.end_ - s.start)) (slice s.buf s.start (s.end_ - s.start)),
           start := newSize - s.bufSize, end_ := newSize, bufSize := newSize }

/-- The split-and-dispatch part of one `Scan` iteration, mirroring the Go
code after the read loop: consult the split function on `buf[start:end)`,
handle split errors and protocol violations, publish a found token, handle
the exhausted source, otherwise compact and/or grow the buffer and loop. -/
def scanSplitPhase (s0 : Scanner) : StepRes :=
  let r := s0.split (slice s0.buf s0.start (s0.end_ - s0.start))
  let advance := r.1
  let token := r.2.1
  match r.2.2 with
  | some e => .result false (s0.setErr e .splitErr)
  | none =>
    let s := { s0 with token := token }
    if advance < 0 then
      .result false (s.setErr GoErr.negativeAdvance .negAdv)
    else if advance > ((s.end_ - s.start : Nat) : Int) then
      .result false (s.setErr GoErr.advanceTooFar .advFar)
    else if advance > 0 || token ≠ none then
      .result true { s with end_ := s.start + advance.toNat }
    else if s.rOffset = 0 then
      if s.start < s.end_ then
        .result true { s with token := bytesTrim (slice s.buf s.start (s.end_ - s.start)), done := true }
      else
        .result false { s with token := none, done := true }
    else
      let s1 := compactIfNeeded s
      if s1.start = 0 then
        if s1.bufSize ≥ s1.maxTokenSize || s1.bufSize > goMaxInt / 2 then
          .result false (s1.setErr GoErr.tooLong .tooLong)
        else
          .loop (growBuffer s1)
      else .loop s1

/-- The outer `for` loop of `Scan`, fuel-indexed on the number of
iterations; `none` means the fuel ran out. -/
def scanLoop (src : SourceBehavior) : Nat → Scanner → Option (Bool × Scanner)
  | 0, _ => none
  | fuel + 1, s0 =>
    match scanFillPhase src s0 with
    | none => none
    | some (.inl r) => some r
    | some (.inr s1) =>
      match scanSplitPhase s1 with
      | .result b s2 => some (b, s2)
      | .loop s2 => scanLoop src fuel s2

/-- `Scan()`: the terminal-state check followed by the main loop. -/
def Scanner.Scan (src : SourceBehavior) (fuel : Nat) (s : Scanner) : Option (Bool × Scanner) :=
  if s.done || s.err ≠ none then
    some (false, { s with token := none, start := s.bufSize, end_ := s.bufSize })
  else
    scanLoop src fuel { s with scanCalled := true }

/-- `Err()`. -/
def Scanner.Err (s : Scanner) : Option GoErr := s.err

/-- `Bytes()`: the current token as a (nil-able) byte view. -/
def Scanner.Bytes (s : Scanner) : Option ByteList := s.token

/-- `Text()`: `string(bs.token)`; a nil token gives the empty string. -/
def Scanner.Text (s : Scanner) : ByteList := s.token.getD []

/-- `Buffer(buf)`: panics (modelled as `none`) when `Scan` has been called;
otherwise installs the external buffer at its full capacity and resets the
window indices to it. -/
def Scanner.Buffer (s : Scanner) (buf : ByteList) : Option Scanner :=
  if s.scanCalled then none
  else some { s with buf := buf, bufSize := buf.length,
                     start := buf.length, end_ := buf.length }

/-- `MaxTokenSize(max)`: panics (modelled as `none`) when `Scan` has been
called. -/
def Scanner.MaxTokenSize (s : Scanner) (max : Nat) : Option Scanner :=
  if s.scanCalled then none else some { s with maxTokenSize := max }

/-- `Split(split)`: panics (modelled as `none`) when `Scan` has been
called. -/
def Scanner.Split (s : Scanner) (split : SplitFunc) : Option Scanner :=
  if s.scanCalled then none else some { s with split := split }

/-- `MaxConsecutiveEmptyReads(v)`: the Go method assigns unconditionally —
there is no `scanCalled` guard in the source — hence the model never fails.
The `Option` wrapper is kept for uniformity with the other mutators
(`none` would mean a panic). -/
def Scanner.MaxConsecutiveEmptyReads (s : Scanner) (v : Nat) : Option Scanner :=
  some { s with maxConsecutiveEmptyReads := v }

/-- Collect the tokens (as `Text()` byte strings) produced by successive
successful `Scan` calls, up to `n` calls. -/
def runScanner (src : SourceBehavior) (fuel : Nat) : Nat → Scanner → List ByteList
  | 0, _ => []
  | n + 1, s =>
    match Scanner.Scan src fuel s with
    | some (true, s') => s'.Text :: runScanner src fuel n s'
    | _ => []

/-- An honest source over `data` that reports zero bytes for its first
`zeros` calls and thereafter returns `min (max (chunk i) 1) asked` true
bytes per call — covering one-shot, slow (partial-read) and rate-limited
sources. -/
def mkSource (data : ByteList) (zeros : Nat) (chunk : Nat → Nat) : SourceBehavior :=
  fun calls off asked =>
    if calls < zeros then (0, none, [])
    else
      let n := min (max (chunk calls) 1) asked
      ((n : Int), none, slice data off n)

/-- A source that always reports zero bytes read with no error. -/
def zeroSource : SourceBehavior := fun _ _ _ => (0, none, [])

/-- Drop a single trailing CR, as the conventional forward scanner does. -/
def dropCR (l : ByteList) : ByteList :=
  if l.getLast? = some 13 then l.dropLast else l

/-- Modelled from the spec: the token sequence of "a conventional forward
line scanner" (Go's `bufio.Scanner` with `bufio.ScanLines`), against which
the spec compares the reverse scanner.  Lines are the LF-separated pieces of
the input, each with one trailing CR dropped; an input ending in LF yields
no final empty line, and an empty input yields no lines. -/
def forwardScanLines (s : ByteList) : List ByteList :=
  if s.isEmpty then []
  else
    (if s.getLast? = some 10 then (s.splitOn 10).dropLast else s.splitOn 10).map dropCR

/-! ### Lemmas about the byte-level helpers -/

theorem slice_zero (l : ByteList) (n : Nat) : slice l 0 n = l.take n := by
  simp [slice]

theorem writeAt_nil (buf : ByteList) (pos : Nat) : writeAt buf pos [] = buf := by
  simp [writeAt]

theorem writeAt_eq (buf : ByteList) (pos : Nat) (w : ByteList)
    (h : pos + w.length ≤ buf.length) :
    writeAt buf pos w = buf.take pos ++ w ++ buf.drop (pos + w.length) := by
  have : w.take (buf.length - pos) = w := List.take_of_length_le (by omega)
  simp [writeAt, this]

theorem writeAt_length (buf : ByteList) (pos : Nat) (w : ByteList) :
    (writeAt buf pos w).length = buf.length := by
  simp only [writeAt, List.length_append, List.length_take, List.length_drop]
  omega

theorem trimLeftTerm_cons_of_not {b : Nat} (xs : ByteList) (h : isTerm b = false) :
    trimLeftTerm (b :: xs) = b :: xs := by
  simp [trimLeftTerm, h]

theorem trimLeftTerm_no (l : ByteList) (h : ∀ b ∈ l, isTerm b = false) :
    trimLeftTerm l = l := by
  cases l with
  | nil => rfl
  | cons b t => exact trimLeftTerm_cons_of_not t (h b (List.mem_cons_self b t))

theorem trimRightTerm_no (l : ByteList) (h : ∀ b ∈ l, isTerm b = false) :
    trimRightTerm l = l := by
  have : trimLeftTerm l.reverse = l.reverse :=
    trimLeftTerm_no _ (fun b hb => h b (List.mem_reverse.mp hb))
  simp [trimRightTerm, this]

theorem bytesTrim_no (l : ByteList) (h : ∀ b ∈ l, isTerm b = false) (hne : l ≠ []) :
    bytesTrim l = some l := by
  simp [bytesTrim, trimRightTerm_no l h, trimLeftTerm_no l h, hne]

theorem bytesTrim_cons10 (r : ByteList) (h : ∀ b ∈ r, isTerm b = false) :
    bytesTrim (10 :: r) = if r.isEmpty then none else some r := by
  cases r with
  | nil => decide
  | cons y ys =>
    have hrev : (10 :: y :: ys).reverse = (y :: ys).reverse ++ [10] := by
      simp
    have hne : (y :: ys).reverse ≠ [] := by simp
    obtain ⟨z, zs, hz⟩ := List.exists_cons_of_ne_nil hne
    have hzmem : z ∈ (y :: ys).reverse := by rw [hz]; exact List.mem_cons_self z zs
    have hzterm : isTerm z = false := h z (List.mem_reverse.mp hzmem)
    have h1 : trimRightTerm (10 :: y :: ys) = 10 :: y :: ys := by
      rw [trimRightTerm, hrev, hz]
      rw [show z :: zs ++ [10] = z :: (zs ++ [10]) from rfl]
      rw [trimLeftTerm_cons_of_not _ hzterm]
      rw [show z :: (zs ++ [10]) = z :: zs ++ [10] from rfl, ← hz, ← hrev]
      simp
    have h2 : trimLeftTerm (10 :: y :: ys) = y :: ys := by
      have : isTerm 10 = true := rfl
      simp only [trimLeftTerm, this, if_true]
      exact trimLeftTerm_no _ h
    simp [bytesTrim, h1, h2]

theorem lastIndexByte_eq_none {l : ByteList} {c : Nat} :
    lastIndexByte l c = none ↔ c ∉ l := by
  induction l with
  | nil => simp [lastIndexByte]
  | cons b t ih =>
    cases h : lastIndexByte t c with
    | some i =>
      have : c ∈ t := by
        by_contra hc
        rw [ih.mpr hc] at h
        exact Option.noConfusion h
      simp [lastIndexByte, h, this]
    | none =>
      have hct : c ∉ t := ih.mp h
      by_cases hb : b = c
      · simp [lastIndexByte, h, hb]
      · simp [lastIndexByte, h, hb, hct, Ne.symm hb]

theorem lastIndexByte_lt_length {l : ByteList} {c : Nat} {i : Nat}
    (h : lastIndexByte l c = some i) : i < l.length := by
  induction l generalizing i with
  | nil => exact Option.noConfusion h
  | cons b t ih =>
    cases ht : lastIndexByte t c with
    | some j =>
      simp only [lastIndexByte, ht, Option.some.injEq] at h
      have := ih ht
      simp only [List.length_cons]
      omega
    | none =>
      by_cases hb : b = c
      · simp [lastIndexByte, ht, hb] at h
        simp only [List.length_cons]
        omega
      · simp [lastIndexByte, ht, hb] at h

theorem lastIndexByte_getElem {l : ByteList} {c : Nat} {i : Nat}
    (h : lastIndexByte l c = some i) : l[i]? = some c := by
  induction l generalizing i with
  | nil => exact Option.noConfusion h
  | cons b t ih =>
    cases ht : lastIndexByte t c with
    | some j =>
      simp only [lastIndexByte, ht, Option.some.injEq] at h
      subst h
      simpa using ih ht
    | none =>
      by_cases hb : b = c
      · subst hb
        simp [lastIndexByte, ht] at h
        have h0 : i = 0 := by omega
        subst h0
        simp
      · simp [lastIndexByte, ht, hb] at h

theorem lastIndexByte_not_mem_drop {l : ByteList} {c : Nat} {i : Nat}
    (h : lastIndexByte l c = some i) : c ∉ l.drop (i + 1) := by
  induction l generalizing i with
  | nil => exact Option.noConfusion h
  | cons b t ih =>
    cases ht : lastIndexByte t c with
    | some j =>
      simp only [lastIndexByte, ht, Option.some.injEq] at h
      subst h
      simpa using ih ht
    | none =>
      by_cases hb : b = c
      · subst hb
        simp [lastIndexByte, ht] at h
        have h0 : i = 0 := by omega
        subst h0
        simpa using lastIndexByte_eq_none.mp ht
      · simp [lastIndexByte, ht, hb] at h

theorem ScanLines_err_none (data : ByteList) : (ScanLines data).2.2 = none := by
  cases h : lastIndexByte data 10 <;> simp [ScanLines, h]

theorem ScanLines_advance_bounds (data : ByteList) :
    0 ≤ (ScanLines data).1 ∧ (ScanLines data).1 ≤ (data.length : Int) := by
  cases h : lastIndexByte data 10 with
  | none => simp [ScanLines, h]
  | some i =>
    have hlt := lastIndexByte_lt_length h
    simp only [ScanLines, h]
    refine ⟨Int.natCast_nonneg i, ?_⟩
    exact_mod_cast Nat.le_of_lt hlt

/-! ### Terminal-state lemmas -/

theorem setErr_err_ne_none (s : Scanner) (e : GoErr) (r : AbortReason) :
    (s.setErr e r).err ≠ none := by
  unfold Scanner.setErr
  split
  next => simp
  next h => exact h

theorem setErr_done (s : Scanner) (e : GoErr) (r : AbortReason) :
    (s.setErr e r).done = s.done := by
  unfold Scanner.setErr; split <;> rfl

theorem setErr_reads (s : Scanner) (e : GoErr) (r : AbortReason) :
    (s.setErr e r).reads = s.reads := by
  unfold Scanner.setErr; split <;> rfl

theorem setErr_start (s : Scanner) (e : GoErr) (r : AbortReason) :
    (s.setErr e r).start = s.start := by
  unfold Scanner.setErr; split <;> rfl

theorem setErr_end (s : Scanner) (e : GoErr) (r : AbortReason) :
    (s.setErr e r).end_ = s.end_ := by
  unfold Scanner.setErr; split <;> rfl

theorem setErr_bufSize (s : Scanner) (e : GoErr) (r : AbortReason) :
    (s.setErr e r).bufSize = s.bufSize := by
  unfold Scanner.setErr; split <;> rfl

theorem setErr_token (s : Scanner) (e : GoErr) (r : AbortReason) :
    (s.setErr e r).token = s.token := by
  unfold Scanner.setErr; split <;> rfl

theorem setErr_err_of_none (s : Scanner) (e : GoErr) (r : AbortReason) (h : s.err = none) :
    (s.setErr e r).err = some e := by
  unfold Scanner.setErr
  rw [if_pos h]

theorem setErr_lastAbort (s : Scanner) (e : GoErr) (r : AbortReason) :
    (s.setErr e r).lastAbort = s.lastAbort ∨ (s.setErr e r).lastAbort = some r := by
  unfold Scanner.setErr
  split
  next => right; rfl
  next => left; rfl

theorem scanFillPhase_inl {src : SourceBehavior} {s : Scanner} {b : Bool} {s' : Scanner}
    (h : scanFillPhase src s = some (.inl (b, s'))) : b = false ∧ s'.err ≠ none := by
  unfold scanFillPhase at h
  split at h
  · dsimp only at h
    split at h
    · simp at h
    · simp only [Option.some.injEq, Sum.inl.injEq, Prod.mk.injEq] at h
      obtain ⟨hb, hs⟩ := h
      refine ⟨hb.symm, ?_⟩
      rw [← hs]
      exact setErr_err_ne_none _ _ _
    · simp at h
  · simp at h

theorem scanFillPhase_inr {src : SourceBehavior} {s s' : Scanner}
    (h : scanFillPhase src s = some (.inr s')) :
    s'.err = s.err ∧ s'.done = s.done ∧ s'.split = s.split ∧ s'.end_ = s.end_ ∧
      s'.bufSize = s.bufSize ∧ s'.lastAbort = s.lastAbort ∧ s'.scanCalled = s.scanCalled ∧
      s'.maxTokenSize = s.maxTokenSize ∧ (s'.start = 0 ∨ s'.start = s.start) := by
  unfold scanFillPhase at h
  split at h
  · dsimp only at h
    split at h
    · simp only [Option.some.injEq, Sum.inr.injEq] at h
      subst h
      simp [Scanner.decreaseOffset]
    · simp at h
    · simp at h
  · simp only [Option.some.injEq, Sum.inr.injEq] at h
    subst h
    simp

theorem compactIfNeeded_fields (s : Scanner) :
    (compactIfNeeded s).err = s.err ∧ (compactIfNeeded s).done = s.done ∧
      (compactIfNeeded s).split = s.split ∧ (compactIfNeeded s).token = s.token ∧
      (compactIfNeeded s).lastAbort = s.lastAbort ∧ (compactIfNeeded s).rOffset = s.rOffset ∧
      (compactIfNeeded s).maxTokenSize = s.maxTokenSize ∧
      (compactIfNeeded s).bufSize = s.bufSize ∧ (compactIfNeeded s).reads = s.reads ∧
      (compactIfNeeded s).scanCalled = s.scanCalled := by
  unfold compactIfNeeded
  split <;> simp

theorem growBuffer_fields (s : Scanner) :
    (growBuffer s).err = s.err ∧ (growBuffer s).done = s.done ∧
      (growBuffer s).split = s.split ∧ (growBuffer s).token = s.token ∧
      (growBuffer s).lastAbort = s.lastAbort ∧ (growBuffer s).rOffset = s.rOffset ∧
      (growBuffer s).maxTokenSize = s.maxTokenSize ∧ (growBuffer s).reads = s.reads ∧
      (growBuffer s).scanCalled = s.scanCalled := by
  unfold growBuffer
  simp

/-- Case analysis for one pass of the split-and-dispatch phase: exactly one
of the eight Go branches fires, with the stated guard conditions. -/
theorem scanSplitPhase_shape (s : Scanner) :
    (∃ e, (s.split (slice s.buf s.start (s.end_ - s.start))).2.2 = some e ∧
        scanSplitPhase s = .result false (Scanner.setErr s e .splitErr)) ∨
    (∃ adv tok, s.split (slice s.buf s.start (s.end_ - s.start)) = (adv, tok, none) ∧
      ((adv < 0 ∧
          scanSplitPhase s =
            .result false (Scanner.setErr { s with token := tok } GoErr.negativeAdvance .negAdv)) ∨
       (0 ≤ adv ∧ ((s.end_ - s.start : Nat) : Int) < adv ∧
          scanSplitPhase s =
            .result false (Scanner.setErr { s with token := tok } GoErr.advanceTooFar .advFar)) ∨
       (0 ≤ adv ∧ adv ≤ ((s.end_ - s.start : Nat) : Int) ∧ (0 < adv ∨ tok ≠ none) ∧
          scanSplitPhase s = .result true { s with token := tok, end_ := s.start + adv.toNat }) ∨
       (adv = 0 ∧ tok = none ∧ s.rOffset = 0 ∧ s.start < s.end_ ∧
          scanSplitPhase s =
            .result true { s with token := bytesTrim (slice s.buf s.start (s.end_ - s.start)),
                                  done := true }) ∨
       (adv = 0 ∧ tok = none ∧ s.rOffset = 0 ∧ ¬ s.start < s.end_ ∧
          scanSplitPhase s = .result false { s with token := none, done := true }) ∨
       (adv = 0 ∧ tok = none ∧ s.rOffset ≠ 0 ∧
          (((compactIfNeeded { s with token := tok }).start = 0 ∧
              ((compactIfNeeded { s with token := tok }).maxTokenSize ≤
                  (compactIfNeeded { s with token := tok }).bufSize ∨
                (compactIfNeeded { s with token := tok }).bufSize > goMaxInt / 2) ∧
              scanSplitPhase s =
                .result false
                  (Scanner.setErr (compactIfNeeded { s with token := tok }) GoErr.tooLong .tooLong)) ∨
           ((compactIfNeeded { s with token := tok }).start = 0 ∧
              ¬((compactIfNeeded { s with token := tok }).maxTokenSize ≤
                  (compactIfNeeded { s with token := tok }).bufSize ∨
                (compactIfNeeded { s with token := tok }).bufSize > goMaxInt / 2) ∧
              scanSplitPhase s = .loop (growBuffer (compactIfNeeded { s with token := tok }))) ∨
           ((compactIfNeeded { s with token := tok }).start ≠ 0 ∧
              scanSplitPhase s = .loop (compactIfNeeded { s with token := tok })))))) := by
  rcases hr : s.split (slice s.buf s.start (s.end_ - s.start)) with ⟨adv, tok, er⟩
  cases er with
  | some e =>
    left
    exact ⟨e, rfl, by unfold scanSplitPhase; rw [hr]⟩
  | none =>
    right
    refine ⟨adv, tok, rfl, ?_⟩
    by_cases h1 : adv < 0
    · exact Or.inl ⟨h1, by unfold scanSplitPhase; rw [hr]; dsimp only; rw [if_pos h1]⟩
    · by_cases h2 : adv > ((s.end_ - s.start : Nat) : Int)
      · refine Or.inr (Or.inl ⟨le_of_not_lt h1, h2, ?_⟩)
        unfold scanSplitPhase; rw [hr]; dsimp only; rw [if_neg h1, if_pos h2]
      · by_cases h3 : 0 < adv ∨ tok ≠ none
        · refine Or.inr (Or.inr (Or.inl ⟨le_of_not_lt h1, le_of_not_lt h2, h3, ?_⟩))
          unfold scanSplitPhase; rw [hr]; dsimp only
          rw [if_neg h1, if_neg h2,
            if_pos (show (decide (adv > 0) || decide (tok ≠ none)) = true by
              simp only [Bool.or_eq_true, decide_eq_true_eq]; exact h3)]
        · have hadv : adv = 0 := by
            rw [not_or] at h3
            omega
          have htok : tok = none := by
            rw [not_or] at h3
            simpa using h3.2
          have h3' : ¬ ((decide (adv > 0) || decide (tok ≠ none)) = true) := by
            simp only [Bool.or_eq_true, decide_eq_true_eq]
            exact h3
          by_cases h4 : s.rOffset = 0
          · by_cases h5 : s.start < s.end_
            · refine Or.inr (Or.inr (Or.inr (Or.inl ⟨hadv, htok, h4, h5, ?_⟩)))
              unfold scanSplitPhase; rw [hr]; dsimp only
              rw [if_neg h1, if_neg h2, if_neg h3', if_pos h4, if_pos h5]
            · refine Or.inr (Or.inr (Or.inr (Or.inr (Or.inl ⟨hadv, htok, h4, h5, ?_⟩))))
              unfold scanSplitPhase; rw [hr]; dsimp only
              rw [if_neg h1, if_neg h2, if_neg h3', if_pos h4, if_neg h5]
          · refine Or.inr (Or.inr (Or.inr (Or.inr (Or.inr ⟨hadv, htok, h4, ?_⟩))))
            by_cases h6 : (compactIfNeeded { s with token := tok }).start = 0
            · by_cases h7 : (compactIfNeeded { s with token := tok }).maxTokenSize ≤
                  (compactIfNeeded { s with token := tok }).bufSize ∨
                  (compactIfNeeded { s with token := tok }).bufSize > goMaxInt / 2
              · refine Or.inl ⟨h6, h7, ?_⟩
                unfold scanSplitPhase; rw [hr]; dsimp only
                rw [if_neg h1, if_neg h2, if_neg h3', if_neg h4, if_pos h6,
                  if_pos (show (decide _ || decide _) = true by
                    simp only [Bool.or_eq_true, decide_eq_true_eq]
                    exact h7)]
              · refine Or.inr (Or.inl ⟨h6, h7, ?_⟩)
                unfold scanSplitPhase; rw [hr]; dsimp only
                rw [if_neg h1, if_neg h2, if_neg h3', if_neg h4, if_pos h6,
                  if_neg (show ¬ ((decide _ || decide _) = true) by
                    simp only [Bool.or_eq_true, decide_eq_true_eq]
                    exact h7)]
            · refine Or.inr (Or.inr ⟨h6, ?_⟩)
              unfold scanSplitPhase; rw [hr]; dsimp only
              rw [if_neg h1, if_neg h2, if_neg h3', if_neg h4, if_neg h6]

theorem scanSplitPhase_result_false {s s' : Scanner} (h : scanSplitPhase s = .result false s') :
    s'.done = true ∨ s'.err ≠ none := by
  rcases scanSplitPhase_shape s with ⟨e, -, heq⟩ |
    ⟨adv, tok, -, ⟨-, heq⟩ | ⟨-, -, heq⟩ | ⟨-, -, -, heq⟩ | ⟨-, -, -, -, heq⟩ |
      ⟨-, -, -, -, heq⟩ | ⟨-, -, -, ⟨-, -, heq⟩ | ⟨-, -, heq⟩ | ⟨-, heq⟩⟩⟩
  · rw [heq] at h
    injection h with hb hs
    exact Or.inr (by rw [← hs]; exact setErr_err_ne_none _ _ _)
  · rw [heq] at h
    injection h with hb hs
    exact Or.inr (by rw [← hs]; exact setErr_err_ne_none _ _ _)
  · rw [heq] at h
    injection h with hb hs
    exact Or.inr (by rw [← hs]; exact setErr_err_ne_none _ _ _)
  · rw [heq] at h
    injection h with hb hs
    exact Bool.noConfusion hb
  · rw [heq] at h
    injection h with hb hs
    exact Bool.noConfusion hb
  · rw [heq] at h
    injection h with hb hs
    exact Or.inl (by rw [← hs])
  · rw [heq] at h
    injection h with hb hs
    exact Or.inr (by rw [← hs]; exact setErr_err_ne_none _ _ _)
  · rw [heq] at h
    exact StepRes.noConfusion h
  · rw [heq] at h
    exact StepRes.noConfusion h

theorem scanSplitPhase_loop {s s' : Scanner} (h : scanSplitPhase s = .loop s') :
    s'.err = s.err ∧ s'.done = s.done ∧ s'.split = s.split ∧ s'.lastAbort = s.lastAbort := by
  rcases scanSplitPhase_shape s with ⟨e, -, heq⟩ |
    ⟨adv, tok, -, ⟨-, heq⟩ | ⟨-, -, heq⟩ | ⟨-, -, -, heq⟩ | ⟨-, -, -, -, heq⟩ |
      ⟨-, -, -, -, heq⟩ | ⟨-, -, -, ⟨-, -, heq⟩ | ⟨-, -, heq⟩ | ⟨-, heq⟩⟩⟩
  · rw [heq] at h; exact StepRes.noConfusion h
  · rw [heq] at h; exact StepRes.noConfusion h
  · rw [heq] at h; exact StepRes.noConfusion h
  · rw [heq] at h; exact StepRes.noConfusion h
  · rw [heq] at h; exact StepRes.noConfusion h
  · rw [heq] at h; exact StepRes.noConfusion h
  · rw [heq] at h; exact StepRes.noConfusion h
  · rw [heq] at h
    injection h with hs
    rw [← hs]
    obtain ⟨f1, f2, f3, -, f5, -⟩ := growBuffer_fields (compactIfNeeded { s with token := tok })
    obtain ⟨g1, g2, g3, -, g5, -⟩ := compactIfNeeded_fields { s with token := tok }
    rw [f1, f2, f3, f5, g1, g2, g3, g5]
    simp
  · rw [heq] at h
    injection h with hs
    rw [← hs]
    obtain ⟨g1, g2, g3, -, g5, -⟩ := compactIfNeeded_fields { s with token := tok }
    rw [g1, g2, g3, g5]
    simp

theorem scanLoop_false {src : SourceBehavior} : ∀ (f : Nat) (s s' : Scanner),
    scanLoop src f s = some (false, s') → s'.done = true ∨ s'.err ≠ none := by
  intro f
  induction f with
  | zero => intro s s' h; exact Option.noConfusion h
  | succ f ih =>
    intro s s' h
    unfold scanLoop at h
    split at h
    · exact Option.noConfusion h
    · next r heq =>
        simp only [Option.some.injEq] at h
        subst h
        exact Or.inr (scanFillPhase_inl heq).2
    · next s1 heq =>
        split at h
        · next b s2 heq2 =>
            simp only [Option.some.injEq, Prod.mk.injEq] at h
            obtain ⟨hb, hs⟩ := h
            subst hs
            exact scanSplitPhase_result_false (hb ▸ heq2)
        · next s2 heq2 => exact ih s2 s' h

theorem Scan_false {src : SourceBehavior} {f : Nat} {s s' : Scanner}
    (h : Scanner.Scan src f s = some (false, s')) : s'.done = true ∨ s'.err ≠ none := by
  unfold Scanner.Scan at h
  split at h
  next hc =>
    simp only [Option.some.injEq, Prod.mk.injEq] at h
    obtain ⟨-, hs⟩ := h
    rw [← hs]
    simpa using hc
  next hc => exact scanLoop_false _ _ _ h

theorem scan_terminal {s : Scanner} (src : SourceBehavior) (f : Nat)
    (h : s.done = true ∨ s.err ≠ none) :
    Scanner.Scan src f s =
      some (false, { s with token := none, start := s.bufSize, end_ := s.bufSize }) := by
  unfold Scanner.Scan
  rw [if_pos (by rcases h with h | h <;> simp [h])]

/-! ### Exhausted-source split-phase outcomes -/

theorem scanSplitPhase_exhausted_nonempty {s : Scanner}
    (hsplit : s.split (slice s.buf s.start (s.end_ - s.start)) = (0, none, none))
    (hoff : s.rOffset = 0) (hlt : s.start < s.end_) :
    scanSplitPhase s =
      .result true { s with token := bytesTrim (slice s.buf s.start (s.end_ - s.start)),
                            done := true } := by
  rcases scanSplitPhase_shape s with ⟨e, he, -⟩ | ⟨adv, tok, hr, hc⟩
  · rw [hsplit] at he
    exact Option.noConfusion he
  · have hx := hr.symm.trans hsplit
    simp only [Prod.mk.injEq] at hx
    obtain ⟨rfl, rfl, -⟩ := hx
    rcases hc with ⟨h', -⟩ | ⟨-, h', -⟩ | ⟨-, -, h', -⟩ | ⟨-, -, -, -, heq⟩ |
      ⟨-, -, -, hlt', -⟩ | ⟨-, -, hne, -⟩
    · exact absurd h' (by omega)
    · exact absurd h' (by omega)
    · exact absurd h' (by simp)
    · exact heq
    · exact absurd hlt hlt'
    · exact absurd hoff hne

theorem scanSplitPhase_exhausted_empty {s : Scanner}
    (hsplit : s.split (slice s.buf s.start (s.end_ - s.start)) = (0, none, none))
    (hoff : s.rOffset = 0) (hlt : ¬ s.start < s.end_) :
    scanSplitPhase s = .result false { s with token := none, done := true } := by
  rcases scanSplitPhase_shape s with ⟨e, he, -⟩ | ⟨adv, tok, hr, hc⟩
  · rw [hsplit] at he
    exact Option.noConfusion he
  · have hx := hr.symm.trans hsplit
    simp only [Prod.mk.injEq] at hx
    obtain ⟨rfl, rfl, -⟩ := hx
    rcases hc with ⟨h', -⟩ | ⟨-, h', -⟩ | ⟨-, -, h', -⟩ | ⟨-, -, -, hlt', -⟩ |
      ⟨-, -, -, -, heq⟩ | ⟨-, -, hne, -⟩
    · exact absurd h' (by omega)
    · exact absurd h' (by omega)
    · exact absurd h' (by simp)
    · exact absurd hlt' hlt
    · exact heq
    · exact absurd hoff hne

/-! ### Claim C6 -/

/-- C6: once `Scan` has returned `false`, every subsequent `Scan` call (over
any source behaviour and any fuel) also returns `false`, `Err()` is
unchanged, and no further read operations are issued to the source (the
ghost read counter does not move). -/
theorem scan_false_idempotent (src src' : SourceBehavior) (f g : Nat) (s s₁ : Scanner)
    (h : Scanner.Scan src f s = some (false, s₁)) :
    (Scanner.Scan src' g s₁).map (fun r => (r.1, r.2.Err, r.2.reads)) =
      some (false, s₁.Err, s₁.reads) := by
  rw [scan_terminal src' g (Scan_false h)]
  simp [Scanner.Err]

/-- Witness for C6 at a concrete input: the empty source scanner fails its
first scan, and the theorem applies to the resulting state. -/
theorem scan_false_idempotent_witness :
    Scanner.Scan zeroSource 2 (NewScanner 0) =
        some (false, { NewScanner 0 with scanCalled := true, done := true }) ∧
      (Scanner.Scan zeroSource 3 { NewScanner 0 with scanCalled := true, done := true }).map
          (fun r => (r.1, r.2.Err, r.2.reads)) = some (false, none, 0) := by
  have h : Scanner.Scan zeroSource 2 (NewScanner 0) =
      some (false, { NewScanner 0 with scanCalled := true, done := true }) := by rfl
  exact ⟨h, scan_false_idempotent zeroSource zeroSource 2 3 _ _ h⟩

/-! ### Claim C8 -/

/-- C8 counterexample: after a successful scan, a failing scan (here the
split function errors out) leaves the PREVIOUS token visible through
`Bytes()`/`Text()` — they are not empty immediately after the first failing
`Scan` call. -/
theorem stale_token_after_first_failing_scan_cex :
    ((Scanner.Split (NewScanner 4) (fun data =>
        if data.length = 4 then ((3 : Int), some (data.drop 3), none)
        else (0, none, some (GoErr.custom 7)))).bind
      (fun s0 => (Scanner.Scan (mkSource [97, 98, 10, 99] 0 (fun _ => 4096)) 2 s0).bind
        (fun r1 => (Scanner.Scan (mkSource [97, 98, 10, 99] 0 (fun _ => 4096)) 2 r1.2).map
          (fun r2 => (r1.1, r2.1, r2.2.Err, r2.2.Bytes, r2.2.Text))))) =
      some (true, false, some (GoErr.custom 7), some [99], [99]) := by rfl

/-- C8 (amended): after `Scan` has returned `false`, the next `Scan` call
(and hence every later one) returns `false` with `Bytes()` nil and `Text()`
empty; the token view immediately after the first failing call itself may
still be the previous token. -/
theorem bytes_empty_after_failed_scan (src src' : SourceBehavior) (f g : Nat) (s s₁ : Scanner)
    (h : Scanner.Scan src f s = some (false, s₁)) (_herr : s₁.Err ≠ none) :
    (Scanner.Scan src' g s₁).map (fun r => (r.1, r.2.Bytes, r.2.Text)) =
      some (false, none, []) := by
  rw [scan_terminal src' g (Scan_false h)]
  simp [Scanner.Bytes, Scanner.Text]

/-- The state in which the scanner over an eleven-byte, always-empty-read
source ends up after its first (failing) scan; used by the C8 witness. -/
def noProgressState : Scanner :=
  { NewScanner 11 with
    scanCalled := true
    rOffset := 0
    buf := List.replicate 11 0
    reads := 101
    err := some GoErr.noProgress
    lastAbort := some AbortReason.noProgress }

set_option maxRecDepth 4000 in
/-- Witness for C8 at a concrete input: an eleven-byte source that always
reports zero bytes read makes the first scan fail with the no-progress
error; the theorem applies to the resulting state. -/
theorem bytes_empty_after_failed_scan_witness :
    Scanner.Scan zeroSource 2 (NewScanner 11) = some (false, noProgressState) ∧
      noProgressState.Err ≠ none ∧
      (Scanner.Scan zeroSource 5 noProgressState).map
        (fun r => (r.1, r.2.Bytes, r.2.Text)) = some (false, none, []) := by
  have h : Scanner.Scan zeroSource 2 (NewScanner 11) = some (false, noProgressState) := by rfl
  exact ⟨h, by simp [Scanner.Err, noProgressState], bytes_empty_after_failed_scan
    zeroSource zeroSource 2 5 _ _ h (by simp [Scanner.Err, noProgressState])⟩

/-! ### Claim C3 -/

/-- C3 counterexample: after `Scan` has been called, `MaxConsecutiveEmptyReads`
still succeeds (no panic), contradicting the claim that all four mutators
fail fatally once scanning has begun. -/
theorem maxConsecutiveEmptyReads_unlocked_cex :
    ((Scanner.Scan (mkSource [97] 0 (fun _ => 1)) 2 (NewScanner 1)).map
      (fun r => (r.2.scanCalled, (Scanner.MaxConsecutiveEmptyReads r.2 7).isSome))) =
      some (true, true) := by decide

/-- C3 (amended): once `Scan` has been called, `Buffer`, `MaxTokenSize` and
`Split` fail fatally (panic, modelled as `none`), but
`MaxConsecutiveEmptyReads` succeeds unconditionally — the Go method has no
`scanCalled` guard. -/
theorem config_mutators_after_scan (s : Scanner) (bu : ByteList) (m v : Nat) (f : SplitFunc)
    (h : s.scanCalled = true) :
    Scanner.Buffer s bu = none ∧ Scanner.MaxTokenSize s m = none ∧
      Scanner.Split s f = none ∧ (Scanner.MaxConsecutiveEmptyReads s v).isSome = true := by
  simp [Scanner.Buffer, Scanner.MaxTokenSize, Scanner.Split,
    Scanner.MaxConsecutiveEmptyReads, h]

/-- Witness for C3 (amended) at a concrete post-scan state. -/
theorem config_mutators_after_scan_witness :
    ({ NewScanner 0 with scanCalled := true } : Scanner).scanCalled = true ∧
      (Scanner.Buffer { NewScanner 0 with scanCalled := true } [] = none ∧
        Scanner.MaxTokenSize { NewScanner 0 with scanCalled := true } 8 = none ∧
        Scanner.Split { NewScanner 0 with scanCalled := true } ScanLines = none ∧
        (Scanner.MaxConsecutiveEmptyReads { NewScanner 0 with scanCalled := true } 5).isSome =
          true) :=
  ⟨rfl, config_mutators_after_scan _ [] 8 5 ScanLines rfl⟩

/-! ### Claim C2 -/

/-- C2: evaluation of the code at the failing input.  Over a four-byte
source, the first read reports 2 of the requested 4 bytes; the second read
is asked for 2 bytes but reports 3.  The claim (and the spec) require
`Scan() == false` with the bad-read-count error; the code accepts the
over-reporting read (its check compares the count against the whole fill
target `bs.start`, not the requested slice length) and the scan succeeds
with no error. -/
theorem overreported_read_after_partial_fill_accepted :
    ((Scanner.Scan (fun i _ _ =>
        match i with
        | 0 => ((2 : Int), none, [97, 98])
        | _ => ((3 : Int), none, [10, 99])) 2 (NewScanner 4)).map
      (fun r => (r.1, r.2.Err, r.2.Text))) = some (true, none, [99]) := by decide

/-! ### Claim C4 -/

/-- C4 counterexample: with a custom split function installed (always
requesting more data), the final token over the exhausted source
`[97, 13, 10]` ("a\r\n") is `[97]` — trimmed — not the untrimmed window
`[97, 13, 10]` the claim promises for custom split functions. -/
theorem final_token_custom_split_trimmed_cex :
    ((Scanner.Split (NewScanner 3) (fun _ => (0, none, none))).bind
      (fun s0 => (Scanner.Scan (mkSource [97, 13, 10] 0 (fun _ => 4096)) 2 s0).map
        (fun r => (r.1, r.2.Bytes, r.2.done)))) = some (true, some [97], true) ∧
      some [97] ≠ some ([97, 13, 10] : ByteList) :=
  ⟨by rfl, by decide⟩

/-- C4 (amended): when the source is exhausted and the split function —
default or custom — responds `(0, nil, nil)` over a non-empty window, the
final token is the remaining window trimmed of leading and trailing CR/LF
bytes regardless of which split function is installed (the trim happens in
`Scan` itself), and the scan is marked finished with a successful result. -/
theorem final_token_trimmed_any_split (src : SourceBehavior) (fl : Nat) (s : Scanner)
    (hdone : s.done = false) (herr : s.err = none)
    (hstart : s.start = 0) (hoff : s.rOffset = 0)
    (hsplit : s.split (slice s.buf 0 s.end_) = (0, none, none))
    (hlt : 0 < s.end_) :
    (Scanner.Scan src (fl + 1) s).map (fun r => (r.1, r.2.token, r.2.done)) =
      some (true, bytesTrim (slice s.buf 0 s.end_), true) := by
  unfold Scanner.Scan
  rw [if_neg (by simp [hdone, herr])]
  unfold scanLoop
  have hfp : scanFillPhase src { s with scanCalled := true } =
      some (.inr { s with scanCalled := true }) := by
    unfold scanFillPhase
    rw [if_neg (by simp [hstart])]
  have hsp := scanSplitPhase_exhausted_nonempty (s := { s with scanCalled := true })
    (by simpa [hstart] using hsplit) (by simpa using hoff) (by simpa [hstart] using hlt)
  simp only [hfp, hsp]
  simp [hstart]

/-- A scanner state holding the exhausted window `[97, 13, 10]` with a
custom split function installed; used by the C4 witness. -/
def crlfWindowState : Scanner :=
  { NewScanner 3 with
    split := fun _ => (0, none, none)
    start := 0
    end_ := 3
    buf := [97, 13, 10]
    rOffset := 0 }

/-- Witness for C4 (amended) at a concrete input: a custom split function
over the window `[97, 13, 10]`. -/
theorem final_token_trimmed_any_split_witness :
    crlfWindowState.done = false ∧
      (Scanner.Scan zeroSource 1 crlfWindowState).map
        (fun r => (r.1, r.2.token, r.2.done)) =
        some (true, bytesTrim (slice [97, 13, 10] 0 3), true) :=
  ⟨rfl, final_token_trimmed_any_split zeroSource 0 _ rfl rfl rfl rfl rfl (by decide)⟩

/-! ### Claim C5 -/

/-- C5: when the split function requests more data over an exhausted source,
a non-empty remaining window yields one final successful token, while an
empty window (start = end) yields no token and `Scan` returns `false` with
`Err()` nil; in particular, a scanner over an empty source (totalSize = 0)
returns `false` from its very first `Scan` with `Err()` nil. -/
theorem exhausted_scan_outcomes (fl : Nat) :
    (∀ src : SourceBehavior,
      (Scanner.Scan src (fl + 1) (NewScanner 0)).map (fun r => (r.1, r.2.Err, r.2.token)) =
        some (false, none, none)) ∧
    (∀ (src : SourceBehavior) (s : Scanner), s.done = false → s.err = none → s.start = 0 →
      s.rOffset = 0 → s.split (slice s.buf 0 s.end_) = (0, none, none) → 0 < s.end_ →
      (Scanner.Scan src (fl + 1) s).map (fun r => r.1) = some true) ∧
    (∀ (src : SourceBehavior) (s : Scanner), s.done = false → s.err = none → s.start = 0 →
      s.end_ = 0 → s.rOffset = 0 → s.split (slice s.buf 0 0) = (0, none, none) →
      (Scanner.Scan src (fl + 1) s).map (fun r => (r.1, r.2.Err, r.2.token, r.2.done)) =
        some (false, none, none, true)) := by
  have hempty : ∀ (src : SourceBehavior) (s : Scanner), s.done = false → s.err = none →
      s.start = 0 → s.end_ = 0 → s.rOffset = 0 → s.split (slice s.buf 0 0) = (0, none, none) →
      (Scanner.Scan src (fl + 1) s).map (fun r => (r.1, r.2.Err, r.2.token, r.2.done)) =
        some (false, none, none, true) := by
    intro src s hdone herr hstart hend hoff hsplit
    unfold Scanner.Scan
    rw [if_neg (by simp [hdone, herr])]
    unfold scanLoop
    have hfp : scanFillPhase src { s with scanCalled := true } =
        some (.inr { s with scanCalled := true }) := by
      unfold scanFillPhase
      rw [if_neg (by simp [hstart])]
    have hsp := scanSplitPhase_exhausted_empty (s := { s with scanCalled := true })
      (by simpa [hstart, hend] using hsplit) (by simpa using hoff) (by simp [hstart, hend])
    simp only [hfp, hsp]
    simp [Scanner.Err, herr]
  refine ⟨fun src => ?_, fun src s hdone herr hstart hoff hsplit hlt => ?_, hempty⟩
  · have h0 := hempty src (NewScanner 0) rfl rfl rfl rfl rfl rfl
    rcases hscan : Scanner.Scan src (fl + 1) (NewScanner 0) with - | r
    · rw [hscan] at h0
      exact Option.noConfusion h0
    · rw [hscan] at h0
      simp only [Option.map, Option.some.injEq, Prod.mk.injEq] at h0 ⊢
      exact ⟨h0.1, h0.2.1, h0.2.2.1⟩
  · have h4 := final_token_trimmed_any_split src fl s hdone herr hstart hoff hsplit hlt
    rcases hscan : Scanner.Scan src (fl + 1) s with - | r
    · rw [hscan] at h4
      exact Option.noConfusion h4
    · rw [hscan] at h4
      simp only [Option.map] at h4 ⊢
      have h1 : r.1 = true := congrArg Prod.fst (Option.some.inj h4)
      rw [h1]

/-! ### Read-loop lemmas -/

theorem slice_append (d : ByteList) (a n m : Nat) :
    slice d a n ++ slice d (a + n) m = slice d a (n + m) := by
  unfold slice
  rw [List.take_add, ← List.drop_drop]

theorem slice_length (d : ByteList) (a n : Nat) (h : a + n ≤ d.length) :
    (slice d a n).length = n := by
  unfold slice
  rw [List.length_take, List.length_drop]
  omega

theorem fillLoop_done {src : SourceBehavior} {target maxEmpty fuel : Nat} {buf : ByteList}
    {left er off calls : Nat} (h : ¬ left < target) :
    fillLoop src target maxEmpty (fuel + 1) buf left er off calls = some (.ok buf calls) := by
  simp only [fillLoop, if_neg h]

theorem fillLoop_step_read {src : SourceBehavior} {target maxEmpty fuel : Nat} {buf : ByteList}
    {left er off calls n : Nat} {w : ByteList}
    (hleft : left < target) (hsrc : src calls off (target - left) = ((n : Int), none, w))
    (hpos : 1 ≤ n) (hn : n ≤ target) (her : er ≤ maxEmpty) :
    fillLoop src target maxEmpty (fuel + 1) buf left er off calls =
      fillLoop src target maxEmpty fuel (writeAt buf left (w.take (target - left)))
        (left + n) er (off + n) (calls + 1) := by
  simp only [fillLoop, if_pos hleft, hsrc]
  rw [if_neg (show ¬ (((n : Int) < 0 || (n : Int) > (target : Int)) = true) by
    simp only [Bool.or_eq_true, decide_eq_true_eq, not_or]
    constructor <;> omega)]
  rw [if_neg (show ¬ ((n : Int) = 0) by omega)]
  rw [if_neg (show ¬ (er > maxEmpty) by omega)]
  simp

theorem fillLoop_step_zero_continue {src : SourceBehavior} {target maxEmpty fuel : Nat}
    {buf : ByteList} {left er off calls : Nat} {w : ByteList}
    (hleft : left < target) (hsrc : src calls off (target - left) = (0, none, w))
    (her : er < maxEmpty) :
    fillLoop src target maxEmpty (fuel + 1) buf left er off calls =
      fillLoop src target maxEmpty fuel (writeAt buf left (w.take (target - left)))
        left (er + 1) off (calls + 1) := by
  simp only [fillLoop, if_pos hleft, hsrc]
  rw [if_neg (show ¬ (((0 : Int) < 0 || (0 : Int) > (target : Int)) = true) by
    simp only [Bool.or_eq_true, decide_eq_true_eq, not_or]
    constructor <;> omega)]
  simp only [if_true]
  rw [if_neg (show ¬ (er + 1 > maxEmpty) by omega)]
  simp

theorem fillLoop_step_zero_abort {src : SourceBehavior} {target maxEmpty fuel : Nat}
    {buf : ByteList} {left er off calls : Nat} {w : ByteList}
    (hleft : left < target) (hsrc : src calls off (target - left) = (0, none, w))
    (her : maxEmpty ≤ er) :
    fillLoop src target maxEmpty (fuel + 1) buf left er off calls =
      some (.fail GoErr.noProgress .noProgress (writeAt buf left (w.take (target - left)))
        (calls + 1)) := by
  simp only [fillLoop, if_pos hleft, hsrc]
  rw [if_neg (show ¬ (((0 : Int) < 0 || (0 : Int) > (target : Int)) = true) by
    simp only [Bool.or_eq_true, decide_eq_true_eq, not_or]
    constructor <;> omega)]
  simp only [if_true]
  rw [if_pos (show er + 1 > maxEmpty by omega)]

/-- A source that always reports zero bytes drives the read loop into the
no-progress abort after `maxEmpty - er + 1` further reads. -/
theorem fillLoop_zeroSource (target maxEmpty : Nat) :
    ∀ (d : Nat) (buf : ByteList) (left er off calls fuel : Nat),
      er + d = maxEmpty → left < target → d + 2 ≤ fuel →
      fillLoop zeroSource target maxEmpty fuel buf left er off calls =
        some (.fail GoErr.noProgress .noProgress buf (calls + d + 1)) := by
  intro d
  induction d with
  | zero =>
    intro buf left er off calls fuel her hleft hfuel
    obtain ⟨f, rfl⟩ : ∃ f, fuel = f + 1 := ⟨fuel - 1, by omega⟩
    rw [fillLoop_step_zero_abort hleft rfl (by omega)]
    simp [writeAt_nil]
  | succ d ih =>
    intro buf left er off calls fuel her hleft hfuel
    obtain ⟨f, rfl⟩ : ∃ f, fuel = f + 1 := ⟨fuel - 1, by omega⟩
    rw [fillLoop_step_zero_continue hleft rfl (by omega)]
    rw [List.take_nil, writeAt_nil]
    rw [ih buf left (er + 1) off (calls + 1) f (by omega) hleft (by omega)]
    congr 1
    congr 1
    omega

/-- Zero-phase of `mkSource`: the first `zeros` calls report zero bytes and
only advance the empty-read counter and the call index. -/
theorem fillLoop_mkSource_zeros (data : ByteList) (zeros : Nat) (chunk : Nat → Nat)
    (target maxEmpty : Nat) :
    ∀ (d : Nat) (buf : ByteList) (left er off calls fuel : Nat),
      calls + d = zeros → er + d ≤ maxEmpty → left < target →
      fillLoop (mkSource data zeros chunk) target maxEmpty (fuel + d) buf left er off calls =
        fillLoop (mkSource data zeros chunk) target maxEmpty fuel buf left (er + d) off zeros := by
  intro d
  induction d with
  | zero =>
    intro buf left er off calls fuel hcalls her hleft
    simp only [Nat.add_zero] at hcalls ⊢
    rw [hcalls]
  | succ d ih =>
    intro buf left er off calls fuel hcalls her hleft
    have hsrc : mkSource data zeros chunk calls off (target - left) = (0, none, []) := by
      unfold mkSource
      rw [if_pos (by omega)]
    rw [show fuel + (d + 1) = (fuel + d) + 1 from rfl]
    rw [fillLoop_step_zero_continue hleft hsrc (by omega)]
    rw [List.take_nil, writeAt_nil]
    rw [ih buf left (er + 1) off (calls + 1) fuel (by omega) (by omega) hleft]
    congr 1
    omega

theorem drop_append_ge (l1 l2 : ByteList) (m : Nat) (h : l1.length ≤ m) :
    (l1 ++ l2).drop m = l2.drop (m - l1.length) := by
  rw [show m = l1.length + (m - l1.length) from by omega, List.drop_append]
  congr 1
  omega

/-- Honest phase of `mkSource`: once past the zero-reads, the loop fills
`buf[left:target)` with the true bytes `data[off0+left : off0+target)` and
succeeds, for any per-call chunking. -/
theorem fillLoop_mkSource_honest (data : ByteList) (zeros : Nat) (chunk : Nat → Nat)
    (target maxEmpty off0 : Nat) (hofft : off0 + target ≤ data.length) :
    ∀ (k : Nat), ∀ (buf : ByteList) (left er calls fuel : Nat),
      left + k = target → target ≤ buf.length → zeros ≤ calls → er ≤ maxEmpty →
      k + 1 ≤ fuel →
      ∃ c, fillLoop (mkSource data zeros chunk) target maxEmpty fuel buf left er
          (off0 + left) calls =
        some (.ok (buf.take left ++ slice data (off0 + left) (target - left) ++
          buf.drop target) c) := by
  intro k
  induction k using Nat.strong_induction_on with
  | _ k ih =>
    intro buf left er calls fuel hk hbuf hcalls her hfuel
    obtain ⟨f, rfl⟩ : ∃ f, fuel = f + 1 := ⟨fuel - 1, by omega⟩
    rcases Nat.eq_zero_or_pos k with rfl | hkpos
    · have hleft : ¬ left < target := by omega
      rw [fillLoop_done hleft]
      refine ⟨calls, ?_⟩
      have : target - left = 0 := by omega
      rw [this]
      have hl : left = target := by omega
      subst hl
      simp [slice, List.take_append_drop]
    · have hleft : left < target := by omega
      set n := min (max (chunk calls) 1) (target - left) with hn
      have hn1 : 1 ≤ n := by
        have : 1 ≤ target - left := by omega
        omega
      have hnle : n ≤ target - left := min_le_right _ _
      have hsrc : mkSource data zeros chunk calls (off0 + left) (target - left) =
          ((n : Int), none, slice data (off0 + left) n) := by
        unfold mkSource
        rw [if_neg (by omega)]
      rw [fillLoop_step_read hleft hsrc hn1 (by omega) her]
      have hwlen : (slice data (off0 + left) n).length = n :=
        slice_length data _ n (by omega)
      have hwtake : (slice data (off0 + left) n).take (target - left) =
          slice data (off0 + left) n :=
        List.take_of_length_le (by omega)
      rw [hwtake]
      have hweq : writeAt buf left (slice data (off0 + left) n) =
          buf.take left ++ slice data (off0 + left) n ++ buf.drop (left + n) := by
        rw [writeAt_eq buf left _ (by rw [hwlen]; omega)]
        rw [hwlen]
      rw [hweq]
      have hlen2 : (buf.take left ++ slice data (off0 + left) n ++
          buf.drop (left + n)).length = buf.length := by
        simp only [List.length_append, List.length_take, List.length_drop, hwlen]
        omega
      obtain ⟨c, hc⟩ := ih (k - n) (by omega)
        (buf.take left ++ slice data (off0 + left) n ++ buf.drop (left + n))
        (left + n) er (calls + 1) f (by omega) (by omega) (by omega) her (by omega)
      rw [show off0 + (left + n) = off0 + left + n from by omega] at hc
      refine ⟨c, ?_⟩
      rw [hc]
      have hAB : (buf.take left ++ slice data (off0 + left) n).length = left + n := by
        simp only [List.length_append, hwlen, List.length_take]
        omega
      have htake : (buf.take left ++ slice data (off0 + left) n ++
          buf.drop (left + n)).take (left + n) = buf.take left ++ slice data (off0 + left) n :=
        List.take_left' hAB
      have hdrop : (buf.take left ++ slice data (off0 + left) n ++
          buf.drop (left + n)).drop target = buf.drop target := by
        rw [drop_append_ge _ _ target (by rw [hAB]; omega), hAB, List.drop_drop]
        congr 1
        omega
      rw [htake, hdrop]
      rw [List.append_assoc (buf.take left), slice_append]
      rw [show n + (target - (left + n)) = target - left from by omega]

/-! ### Split-phase outcomes under the default split function -/

theorem scanSplitPhase_scanLines_found {s : Scanner} {i : Nat}
    (hsplit : s.split = ScanLines) (hstart : s.start = 0) (hend : s.end_ ≤ s.buf.length)
    (hlast : lastIndexByte (s.buf.take s.end_) 10 = some i)
    (hcond : 0 < i ∨ bytesTrim ((s.buf.take s.end_).drop i) ≠ none) :
    scanSplitPhase s =
      .result true { s with token := bytesTrim ((s.buf.take s.end_).drop i), end_ := i } := by
  have hW : slice s.buf s.start (s.end_ - s.start) = s.buf.take s.end_ := by
    rw [hstart, slice_zero, Nat.sub_zero]
  have hSL : ScanLines (s.buf.take s.end_) =
      ((i : Int), bytesTrim ((s.buf.take s.end_).drop i), none) := by
    unfold ScanLines
    rw [hlast]
  have hilt : i < s.end_ := by
    have h1 := lastIndexByte_lt_length hlast
    rw [List.length_take] at h1
    omega
  rcases scanSplitPhase_shape s with ⟨e, he, -⟩ | ⟨adv, tok, hr, hc⟩
  · rw [hsplit, hW, hSL] at he
    exact Option.noConfusion he
  rw [hsplit, hW, hSL] at hr
  have hadv' : adv = (i : Int) := by
    have h' := congrArg Prod.fst hr
    simpa using h'.symm
  have htok' : tok = bytesTrim ((s.buf.take s.end_).drop i) := by
    have h' := congrArg (fun p => p.2.1) hr
    simpa using h'.symm
  rcases hc with ⟨hlt, -⟩ | ⟨-, hgt, -⟩ | ⟨-, -, -, heq⟩ | ⟨hadv, htok, -, -, -⟩ |
    ⟨hadv, htok, -, -, -⟩ | ⟨hadv, htok, -, -⟩
  · exact absurd hlt (by rw [hadv']; omega)
  · exact absurd hgt (by rw [hadv', hstart, Nat.sub_zero]; push_neg; exact_mod_cast le_of_lt hilt)
  · rw [heq, hadv', htok']
    have : ((i : Int)).toNat = i := Int.toNat_natCast i
    rw [this, hstart, Nat.zero_add]
  · rcases hcond with hc | hc
    · rw [hadv'] at hadv
      exact absurd hadv (by exact_mod_cast by omega)
    · rw [htok'] at htok
      exact absurd htok hc
  · rcases hcond with hc | hc
    · rw [hadv'] at hadv
      exact absurd hadv (by exact_mod_cast by omega)
    · rw [htok'] at htok
      exact absurd htok hc
  · rcases hcond with hc | hc
    · rw [hadv'] at hadv
      exact absurd hadv (by exact_mod_cast by omega)
    · rw [htok'] at htok
      exact absurd htok hc

/-- The fill phase over the always-empty source records the no-progress
error. -/
theorem scanFillPhase_zeroSource (s : Scanner) (hstart : 0 < s.start) :
    ∃ bufX, scanFillPhase zeroSource s =
      some (.inl (false, Scanner.setErr
        { s.decreaseOffset s.start with
          buf := bufX
          reads := s.reads + s.maxConsecutiveEmptyReads + 1 }
        GoErr.noProgress .noProgress)) := by
  unfold scanFillPhase
  rw [if_pos hstart]
  dsimp only [Scanner.decreaseOffset]
  rw [fillLoop_zeroSource s.start s.maxConsecutiveEmptyReads s.maxConsecutiveEmptyReads
    _ 0 0 _ _ _ (by omega) hstart (by omega)]
  exact ⟨_, rfl⟩

/-- First fill of a freshly-constructed scanner over an `mkSource` source:
the whole source is loaded into the buffer, the offset drops to zero and the
window spans the full buffer. -/
theorem scan_first_fill (data : ByteList) (zeros : Nat) (chunk : Nat → Nat) (s : Scanner)
    (hbufe : s.buf = []) (hstart : s.start = data.length) (hoff : s.rOffset = data.length)
    (hbs : s.bufSize = data.length) (hreads : s.reads = 0)
    (hpos : 0 < data.length) (hzm : zeros ≤ s.maxConsecutiveEmptyReads) :
    ∃ c, scanFillPhase (mkSource data zeros chunk) s =
      some (.inr
        { s with
          buf := data
          reads := c
          start := 0
          rOffset := s.rOffset - s.start }) := by
  unfold scanFillPhase
  rw [if_pos (by omega)]
  dsimp only [Scanner.decreaseOffset]
  rw [if_pos (by rw [hbufe]; rfl)]
  have hfuelsplit : s.start + s.maxConsecutiveEmptyReads + 2 =
      (s.start + s.maxConsecutiveEmptyReads + 2 - zeros) + zeros := by omega
  rw [hfuelsplit]
  rw [hreads]
  have hz := fillLoop_mkSource_zeros data zeros chunk s.start s.maxConsecutiveEmptyReads zeros
    (List.replicate s.bufSize 0) 0 0 (s.rOffset - s.start) 0
    (s.start + s.maxConsecutiveEmptyReads + 2 - zeros) (by omega) (by omega) (by omega)
  rw [Nat.zero_add] at hz
  rw [hz]
  have hoffz : s.rOffset - s.start = 0 := by omega
  rw [hoffz]
  obtain ⟨c, hc⟩ := fillLoop_mkSource_honest data zeros chunk s.start
    s.maxConsecutiveEmptyReads 0 (by omega) s.start (List.replicate s.bufSize 0) 0 zeros zeros
    (s.start + s.maxConsecutiveEmptyReads + 2 - zeros)
    (by omega) (by rw [List.length_replicate]; omega) (le_refl zeros) hzm (by omega)
  rw [Nat.add_zero, Nat.zero_add] at hc
  rw [hc]
  have hbufeq : (List.replicate s.bufSize 0).take 0 ++ slice data 0 (s.start - 0) ++
      (List.replicate s.bufSize 0).drop s.start = data := by
    rw [List.take_zero, List.nil_append, Nat.sub_zero]
    rw [show (List.replicate s.bufSize 0).drop s.start = [] from by
      have hh : s.start = (List.replicate s.bufSize (0 : Nat)).length := by
        rw [List.length_replicate]
        omega
      rw [hh, List.drop_length]]
    rw [List.append_nil]
    unfold slice
    rw [List.drop_zero, hstart, List.take_length]
  rw [hbufeq]
  exact ⟨c, rfl⟩

/-! ### Claim C7 -/

/-- C7: a source that always reports zero bytes read (and no error) makes
`Scan` return `false` with the no-progress error once the count of
consecutive zero-byte reads exceeds `maxConsecutiveEmptyReads`; a source
that reports zero bytes any number of times not exceeding the limit before
delivering data still completes the scan successfully. -/
theorem empty_reads_limit (fl : Nat) :
    (∀ s : Scanner, s.done = false → s.err = none → 0 < s.start →
      (Scanner.Scan zeroSource (fl + 1) s).map (fun r => (r.1, r.2.Err)) =
        some (false, some GoErr.noProgress)) ∧
    (∀ (data : ByteList) (zeros : Nat) (chunk : Nat → Nat) (m : Nat) (s0 : Scanner),
      data ≠ [] → data.length ≤ defaultBufSize → zeros ≤ m →
      Scanner.MaxConsecutiveEmptyReads (NewScanner data.length) m = some s0 →
      (Scanner.Scan (mkSource data zeros chunk) (fl + 1) s0).map (fun r => r.1) = some true) := by
  constructor
  · intro s hdone herr hstart
    unfold Scanner.Scan
    rw [if_neg (by simp [hdone, herr])]
    unfold scanLoop
    obtain ⟨bufX, hfp⟩ := scanFillPhase_zeroSource { s with scanCalled := true }
      (by simpa using hstart)
    simp only [hfp]
    simp [Scanner.Err, Scanner.setErr, Scanner.decreaseOffset, herr]
  · intro data zeros chunk m s0 hne hlen hzm hs0
    simp only [Scanner.MaxConsecutiveEmptyReads, Option.some.injEq] at hs0
    subst hs0
    have hpos : 0 < data.length := List.length_pos.mpr hne
    have hbs : (NewScanner data.length).bufSize = data.length := by
      unfold NewScanner
      dsimp only
      split <;> omega
    have hstart : (NewScanner data.length).start = data.length := by
      unfold NewScanner
      dsimp only
      split <;> omega
    have hend : (NewScanner data.length).end_ = data.length := by
      unfold NewScanner
      dsimp only
      split <;> omega
    unfold Scanner.Scan
    rw [if_neg (by simp [NewScanner])]
    unfold scanLoop
    obtain ⟨c, hfp⟩ := scan_first_fill data zeros chunk
      { NewScanner data.length with maxConsecutiveEmptyReads := m, scanCalled := true }
      (by simp [NewScanner]) (by simpa using hstart) (by simp [NewScanner])
      (by simpa using hbs) (by simp [NewScanner]) hpos (by simpa using hzm)
    simp only [hfp]
    set S2 : Scanner :=
      { NewScanner data.length with
        maxConsecutiveEmptyReads := m
        scanCalled := true
        buf := data
        reads := c
        start := 0
        rOffset := (NewScanner data.length).rOffset - (NewScanner data.length).start } with hS2
    have hS2start : S2.start = 0 := rfl
    have hS2buf : S2.buf = data := rfl
    have hS2end : S2.end_ = data.length := by
      rw [hS2]
      simpa using hend
    have hS2off : S2.rOffset = 0 := by
      have hro : (NewScanner data.length).rOffset = data.length := rfl
      show (NewScanner data.length).rOffset - (NewScanner data.length).start = 0
      omega
    have hS2split : S2.split = ScanLines := rfl
    have htake : S2.buf.take S2.end_ = data := by
      rw [hS2buf, hS2end, List.take_length]
    have hmain : ∃ X, scanSplitPhase S2 = .result true X := by
      cases hli : lastIndexByte data 10 with
      | none =>
        refine ⟨_, scanSplitPhase_exhausted_nonempty (s := S2) ?_ hS2off ?_⟩
        · rw [hS2split, hS2start, slice_zero, Nat.sub_zero, htake]
          unfold ScanLines
          rw [hli]
        · rw [hS2start, hS2end]
          omega
      | some i =>
        by_cases hc : 0 < i ∨ bytesTrim ((S2.buf.take S2.end_).drop i) ≠ none
        · exact ⟨_, scanSplitPhase_scanLines_found hS2split hS2start
            (by rw [hS2buf, hS2end]) (by rw [htake]; exact hli) hc⟩
        · push_neg at hc
          obtain ⟨hc1, hc2⟩ := hc
          have hi0 : i = 0 := by omega
          refine ⟨_, scanSplitPhase_exhausted_nonempty (s := S2) ?_ hS2off ?_⟩
          · rw [hS2split, hS2start, slice_zero, Nat.sub_zero, htake]
            unfold ScanLines
            rw [hli, hi0]
            rw [htake] at hc2
            rw [hi0] at hc2
            simp only [Int.natCast_zero, hc2]
          · rw [hS2start, hS2end]
            omega
    obtain ⟨X, hX⟩ := hmain
    simp only [hX]
    simp

/-- Witness for C7 at concrete inputs: an always-empty source over three
bytes aborts with the no-progress error; a source that reports zero bytes
five times (limit ten) and then delivers at most two bytes per read scans
"hi\n" successfully. -/
theorem empty_reads_limit_witness :
    ((NewScanner 3).done = false ∧
      (Scanner.Scan zeroSource 1 (NewScanner 3)).map (fun r => (r.1, r.2.Err)) =
        some (false, some GoErr.noProgress)) ∧
    (([104, 105, 10] : ByteList) ≠ [] ∧
      (Scanner.Scan (mkSource [104, 105, 10] 5 (fun _ => 2)) 1
        { NewScanner 3 with maxConsecutiveEmptyReads := 10 }).map (fun r => r.1) = some true) :=
  ⟨⟨rfl, (empty_reads_limit 0).1 (NewScanner 3) rfl rfl (by decide)⟩,
   ⟨by decide, (empty_reads_limit 0).2 [104, 105, 10] 5 (fun _ => 2) 10 _
      (by decide) (by decide) (by decide) rfl⟩⟩

/-- Witness for C5 at a concrete input: a non-empty exhausted window
produces one final successful token. -/
theorem exhausted_scan_outcomes_witness :
    crlfWindowState.done = false ∧
      (Scanner.Scan zeroSource 1 crlfWindowState).map (fun r => r.1) = some true :=
  ⟨rfl, (exhausted_scan_outcomes 0).2.1 zeroSource crlfWindowState rfl rfl rfl rfl rfl
    (by decide)⟩

/-! ### Claim C9 -/

/-- The window-index invariant `start ≤ end ≤ bufSize` (the lower bound
`0 ≤ start` is inherent in the `Nat` representation, matching the
non-negative reachable states of the Go `int` fields). -/
def WindowInv (s : Scanner) : Prop := s.start ≤ s.end_ ∧ s.end_ ≤ s.bufSize

/-- The state carried by a step result. -/
def StepRes.state : StepRes → Scanner
  | .result _ s => s
  | .loop s => s

theorem compactIfNeeded_inv {s : Scanner} (h : WindowInv s) :
    WindowInv (compactIfNeeded s) := by
  obtain ⟨h1, h2⟩ := h
  unfold compactIfNeeded
  split
  next hcond =>
    refine ⟨by dsimp only; omega, ?_⟩
    dsimp only
    omega
  next => exact ⟨h1, h2⟩

theorem growBuffer_inv (s : Scanner) : WindowInv (growBuffer s) := by
  unfold growBuffer
  refine ⟨?_, ?_⟩ <;> dsimp only <;> omega

theorem setErr_inv {s : Scanner} (e : GoErr) (r : AbortReason) (h : WindowInv s) :
    WindowInv (s.setErr e r) := by
  obtain ⟨h1, h2⟩ := h
  exact ⟨by rw [setErr_start, setErr_end]; exact h1, by rw [setErr_end, setErr_bufSize]; exact h2⟩

theorem scanSplitPhase_inv {s : Scanner} (hinv : WindowInv s) :
    WindowInv (scanSplitPhase s).state := by
  obtain ⟨h1, h2⟩ := hinv
  rcases scanSplitPhase_shape s with ⟨e, -, heq⟩ |
    ⟨adv, tok, -, ⟨-, heq⟩ | ⟨-, -, heq⟩ | ⟨hnn, hle, -, heq⟩ | ⟨-, -, -, -, heq⟩ |
      ⟨-, -, -, -, heq⟩ | ⟨-, -, -, ⟨-, -, heq⟩ | ⟨-, -, heq⟩ | ⟨-, heq⟩⟩⟩ <;>
    rw [heq] <;> dsimp only [StepRes.state]
  · exact setErr_inv _ _ ⟨h1, h2⟩
  · exact setErr_inv _ _ ⟨h1, h2⟩
  · exact setErr_inv _ _ ⟨h1, h2⟩
  · have hta : adv.toNat ≤ s.end_ - s.start := by omega
    exact ⟨by dsimp only; omega, by dsimp only; omega⟩
  · exact ⟨h1, h2⟩
  · exact ⟨h1, h2⟩
  · exact setErr_inv _ _ (compactIfNeeded_inv ⟨h1, h2⟩)
  · exact growBuffer_inv _
  · exact compactIfNeeded_inv ⟨h1, h2⟩

theorem scanFillPhase_inl_indices {src : SourceBehavior} {s : Scanner} {b : Bool} {s' : Scanner}
    (h : scanFillPhase src s = some (.inl (b, s'))) :
    s'.start = s.start ∧ s'.end_ = s.end_ ∧ s'.bufSize = s.bufSize := by
  unfold scanFillPhase at h
  split at h
  · dsimp only at h
    split at h
    · simp at h
    · simp only [Option.some.injEq, Sum.inl.injEq, Prod.mk.injEq] at h
      obtain ⟨-, hs⟩ := h
      rw [← hs, setErr_start, setErr_end, setErr_bufSize]
      exact ⟨rfl, rfl, rfl⟩
    · simp at h
  · simp at h

theorem scanLoop_inv {src : SourceBehavior} : ∀ (f : Nat) (s : Scanner) (b : Bool)
    (s' : Scanner), WindowInv s → scanLoop src f s = some (b, s') → WindowInv s' := by
  intro f
  induction f with
  | zero => intro s b s' _ h; exact Option.noConfusion h
  | succ f ih =>
    intro s b s' hinv h
    unfold scanLoop at h
    split at h
    · exact Option.noConfusion h
    · next r heq =>
        simp only [Option.some.injEq] at h
        subst h
        obtain ⟨e1, e2, e3⟩ := scanFillPhase_inl_indices heq
        exact ⟨by rw [e1, e2]; exact hinv.1, by rw [e2, e3]; exact hinv.2⟩
    · next s1 heq =>
        have hinv1 : WindowInv s1 := by
          obtain ⟨-, -, -, f4, f5, -, -, -, f9⟩ := scanFillPhase_inr heq
          rcases f9 with f9 | f9
          · exact ⟨by rw [f9]; omega, by rw [f4, f5]; exact hinv.2⟩
          · exact ⟨by rw [f9, f4]; exact hinv.1, by rw [f4, f5]; exact hinv.2⟩
        split at h
        · next b2 s2 heq2 =>
            simp only [Option.some.injEq, Prod.mk.injEq] at h
            obtain ⟨-, hs⟩ := h
            have := scanSplitPhase_inv hinv1
            rw [heq2] at this
            rw [← hs]
            exact this
        · next s2 heq2 =>
            have := scanSplitPhase_inv hinv1
            rw [heq2] at this
            exact ih s2 b s' this h

/-- C9: the window-index invariant `0 ≤ start ≤ end ≤ bufSize` holds at
construction, after installing an external buffer, after each pre-scan
configuration call, and is preserved by every `Scan` call — returning true
or false — for every source behaviour and every (possibly custom) split
function. -/
theorem window_invariant (readerSize : Nat) (src : SourceBehavior) (fuel : Nat)
    (s s' : Scanner) (bu : ByteList) (m v : Nat) (f : SplitFunc) (b : Bool) :
    WindowInv (NewScanner readerSize) ∧
      (Scanner.Buffer s bu = some s' → WindowInv s') ∧
      (Scanner.MaxTokenSize s m = some s' → WindowInv s → WindowInv s') ∧
      (Scanner.Split s f = some s' → WindowInv s → WindowInv s') ∧
      (Scanner.MaxConsecutiveEmptyReads s v = some s' → WindowInv s → WindowInv s') ∧
      (Scanner.Scan src fuel s = some (b, s') → WindowInv s → WindowInv s') := by
  refine ⟨⟨le_refl _, le_refl _⟩, ?_, ?_, ?_, ?_, ?_⟩
  · intro h
    unfold Scanner.Buffer at h
    split at h
    · exact Option.noConfusion h
    · simp only [Option.some.injEq] at h
      rw [← h]
      exact ⟨le_refl _, le_refl _⟩
  · intro h hinv
    unfold Scanner.MaxTokenSize at h
    split at h
    · exact Option.noConfusion h
    · simp only [Option.some.injEq] at h
      rw [← h]
      exact hinv
  · intro h hinv
    unfold Scanner.Split at h
    split at h
    · exact Option.noConfusion h
    · simp only [Option.some.injEq] at h
      rw [← h]
      exact hinv
  · intro h hinv
    unfold Scanner.MaxConsecutiveEmptyReads at h
    simp only [Option.some.injEq] at h
    rw [← h]
    exact hinv
  · intro h hinv
    unfold Scanner.Scan at h
    split at h
    · simp only [Option.some.injEq, Prod.mk.injEq] at h
      obtain ⟨-, hs⟩ := h
      rw [← hs]
      exact ⟨le_refl _, le_refl _⟩
    · exact scanLoop_inv fuel { s with scanCalled := true } b s' ⟨hinv.1, hinv.2⟩ h

/-- The state after the first scan of `[97, 10]`; used by the C9 witness. -/
def afterFirstScanState : Scanner :=
  { NewScanner 2 with
    scanCalled := true
    rOffset := 0
    buf := [97, 10]
    reads := 1
    start := 0
    end_ := 1
    token := none }

/-- Witness for C9 at a concrete input. -/
theorem window_invariant_witness :
    Scanner.Scan (mkSource [97, 10] 0 (fun _ => 4096)) 2 (NewScanner 2) =
        some (true, afterFirstScanState) ∧
      WindowInv (NewScanner 2) ∧ WindowInv afterFirstScanState := by
  have h : Scanner.Scan (mkSource [97, 10] 0 (fun _ => 4096)) 2 (NewScanner 2) =
      some (true, afterFirstScanState) := by rfl
  have hinv0 : WindowInv (NewScanner 2) := by constructor <;> decide
  exact ⟨h, hinv0,
    (window_invariant 2 (mkSource [97, 10] 0 (fun _ => 4096)) 2 (NewScanner 2) _ [] 0 0
      ScanLines true).2.2.2.2.2 h hinv0⟩

/-! ### Claim C10 -/

theorem fillLoop_fail_reason {src : SourceBehavior} {target maxEmpty : Nat} :
    ∀ (fuel : Nat) (buf : ByteList) (left er off calls : Nat) {e : GoErr}
      {reason : AbortReason} {bufr : ByteList} {c : Nat},
    fillLoop src target maxEmpty fuel buf left er off calls = some (.fail e reason bufr c) →
    reason = .badCount ∨ reason = .readErr ∨ reason = .noProgress := by
  intro fuel
  induction fuel with
  | zero =>
    intro buf left er off calls e reason bufr c h
    exact Option.noConfusion h
  | succ fuel ih =>
    intro buf left er off calls e reason bufr c h
    rw [fillLoop] at h
    split at h
    · dsimp only at h
      split at h
      · simp only [Option.some.injEq, FillRes.fail.injEq] at h
        exact Or.inl h.2.1.symm
      · split at h
        · simp only [Option.some.injEq, FillRes.fail.injEq] at h
          exact Or.inr (Or.inl h.2.1.symm)
        · repeat' split at h
          all_goals first
            | exact ih _ _ _ _ _ h
            | (simp only [Option.some.injEq, FillRes.fail.injEq] at h
               exact Or.inr (Or.inr h.2.1.symm))
    · simp at h

theorem scanFillPhase_inl_abort {src : SourceBehavior} {s : Scanner} {b : Bool} {s' : Scanner}
    (h : scanFillPhase src s = some (.inl (b, s'))) :
    s'.lastAbort = s.lastAbort ∨ s'.lastAbort = some .badCount ∨
      s'.lastAbort = some .readErr ∨ s'.lastAbort = some .noProgress := by
  unfold scanFillPhase at h
  split at h
  · dsimp only at h
    split at h
    · simp at h
    · next e reason bufr c heq =>
        simp only [Option.some.injEq, Sum.inl.injEq, Prod.mk.injEq] at h
        obtain ⟨-, hs⟩ := h
        have hreason := fillLoop_fail_reason _ _ _ _ _ _ heq
        rw [← hs]
        rcases setErr_lastAbort _ e reason with ha | ha
        · rw [ha]
          left
          simp [Scanner.decreaseOffset]
        · rw [ha]
          rcases hreason with hr | hr | hr <;> rw [hr]
          · exact Or.inr (Or.inl rfl)
          · exact Or.inr (Or.inr (Or.inl rfl))
          · exact Or.inr (Or.inr (Or.inr rfl))
    · simp at h
  · simp at h

theorem scanSplitPhase_abort {s : Scanner} (hsplit : s.split = ScanLines) :
    (scanSplitPhase s).state.lastAbort = s.lastAbort ∨
      (scanSplitPhase s).state.lastAbort = some .tooLong := by
  have hWlen : (slice s.buf s.start (s.end_ - s.start)).length ≤ s.end_ - s.start := by
    unfold slice
    rw [List.length_take]
    omega
  rcases scanSplitPhase_shape s with ⟨e, he, -⟩ |
    ⟨adv, tok, hr, ⟨hlt, -⟩ | ⟨-, hgt, -⟩ | ⟨-, -, -, heq⟩ | ⟨-, -, -, -, heq⟩ |
      ⟨-, -, -, -, heq⟩ | ⟨-, -, -, ⟨-, -, heq⟩ | ⟨-, -, heq⟩ | ⟨-, heq⟩⟩⟩
  · rw [hsplit, ScanLines_err_none] at he
    exact Option.noConfusion he
  · rw [hsplit] at hr
    have hb := (ScanLines_advance_bounds (slice s.buf s.start (s.end_ - s.start))).1
    rw [hr] at hb
    dsimp only at hb
    exact absurd hlt (by omega)
  · rw [hsplit] at hr
    have hb := (ScanLines_advance_bounds (slice s.buf s.start (s.end_ - s.start))).2
    rw [hr] at hb
    dsimp only at hb
    have : ((slice s.buf s.start (s.end_ - s.start)).length : Int) ≤
        ((s.end_ - s.start : Nat) : Int) := by exact_mod_cast hWlen
    exact absurd hgt (by omega)
  · rw [heq]
    dsimp only [StepRes.state]
    left
    simp
  · rw [heq]
    dsimp only [StepRes.state]
    left
    simp
  · rw [heq]
    dsimp only [StepRes.state]
    left
    simp
  · rw [heq]
    dsimp only [StepRes.state]
    rcases setErr_lastAbort _ GoErr.tooLong .tooLong with ha | ha
    · rw [ha]
      left
      rw [(compactIfNeeded_fields _).2.2.2.2.1]
    · rw [ha]
      right
      rfl
  · rw [heq]
    dsimp only [StepRes.state]
    left
    rw [(growBuffer_fields _).2.2.2.2.1, (compactIfNeeded_fields _).2.2.2.2.1]
  · rw [heq]
    dsimp only [StepRes.state]
    left
    rw [(compactIfNeeded_fields _).2.2.2.2.1]

theorem scanLoop_abort {src : SourceBehavior} : ∀ (f : Nat) (s : Scanner) (r : Bool × Scanner),
    s.split = ScanLines → scanLoop src f s = some r →
    (r.2.lastAbort = s.lastAbort ∨ r.2.lastAbort = some .badCount ∨
      r.2.lastAbort = some .readErr ∨ r.2.lastAbort = some .noProgress ∨
      r.2.lastAbort = some .tooLong) := by
  intro f
  induction f with
  | zero => intro s r _ h; exact Option.noConfusion h
  | succ f ih =>
    intro s r hsplit h
    unfold scanLoop at h
    split at h
    · exact Option.noConfusion h
    · next rr heq =>
        simp only [Option.some.injEq] at h
        subst h
        rcases rr with ⟨b, s'⟩
        rcases scanFillPhase_inl_abort heq with ha | ha | ha | ha
        · exact Or.inl ha
        · exact Or.inr (Or.inl ha)
        · exact Or.inr (Or.inr (Or.inl ha))
        · exact Or.inr (Or.inr (Or.inr (Or.inl ha)))
    · next s1 heq =>
        obtain ⟨-, -, f3, -, -, f6, -⟩ := scanFillPhase_inr heq
        split at h
        · next b2 s2 heq2 =>
            simp only [Option.some.injEq] at h
            subst h
            have := scanSplitPhase_abort (s := s1) (by rw [f3, hsplit])
            rw [heq2] at this
            dsimp only [StepRes.state] at this
            rcases this with ha | ha
            · exact Or.inl (by rw [ha, f6])
            · exact Or.inr (Or.inr (Or.inr (Or.inr ha)))
        · next s2 heq2 =>
            obtain ⟨-, -, g3, g4⟩ := scanSplitPhase_loop heq2
            have hres := ih s2 r (by rw [g3, f3, hsplit]) h
            rw [g4, f6] at hres
            exact hres

/-- C10: the default split function `ScanLines` always reports a nil error
and an advance between 0 and the window length; consequently, with
`ScanLines` installed, the negative-advance, advance-too-far and split-error
failure branches of `Scan` are unreachable (the sticky error can only be set
by a read-loop branch or the too-long branch). -/
theorem scanLines_bounds_and_branches :
    (∀ data : ByteList, (ScanLines data).2.2 = none ∧ 0 ≤ (ScanLines data).1 ∧
      (ScanLines data).1 ≤ (data.length : Int)) ∧
    (∀ (src : SourceBehavior) (fuel : Nat) (s : Scanner) (r : Bool × Scanner),
      s.split = ScanLines → s.lastAbort = none → Scanner.Scan src fuel s = some r →
      r.2.lastAbort ≠ some .splitErr ∧ r.2.lastAbort ≠ some .negAdv ∧
        r.2.lastAbort ≠ some .advFar) := by
  constructor
  · intro data
    exact ⟨ScanLines_err_none data, (ScanLines_advance_bounds data).1,
      (ScanLines_advance_bounds data).2⟩
  · intro src fuel s r hsplit habort h
    unfold Scanner.Scan at h
    split at h
    · simp only [Option.some.injEq] at h
      subst h
      dsimp only
      rw [habort]
      exact ⟨by simp, by simp, by simp⟩
    · have := scanLoop_abort fuel { s with scanCalled := true } r (by simpa using hsplit) h
      rcases this with ha | ha | ha | ha | ha <;> rw [ha] <;>
        first
          | (rw [show ({ s with scanCalled := true } : Scanner).lastAbort = s.lastAbort from
              rfl, habort]
             exact ⟨by simp, by simp, by simp⟩)
          | exact ⟨by simp, by simp, by simp⟩

/-- Witness for C10 at a concrete input. -/
theorem scanLines_bounds_and_branches_witness :
    (NewScanner 0).split = ScanLines ∧ (NewScanner 0).lastAbort = none ∧
      Scanner.Scan zeroSource 2 (NewScanner 0) =
        some (false, { NewScanner 0 with scanCalled := true, done := true }) ∧
      (({ NewScanner 0 with scanCalled := true, done := true } : Scanner).lastAbort ≠
          some .splitErr ∧
        ({ NewScanner 0 with scanCalled := true, done := true } : Scanner).lastAbort ≠
          some .negAdv ∧
        ({ NewScanner 0 with scanCalled := true, done := true } : Scanner).lastAbort ≠
          some .advFar) :=
  ⟨rfl, rfl, rfl,
    (scanLines_bounds_and_branches).2 zeroSource 2 (NewScanner 0)
      (false, { NewScanner 0 with scanCalled := true, done := true }) rfl rfl rfl⟩

/-! ### Claim C1: support lemmas about line splitting -/

theorem isTerm_false_of {b : Nat} (h13 : b ≠ 13) (h10 : b ≠ 10) : isTerm b = false := by
  simp only [isTerm, Bool.or_eq_false_iff, beq_eq_false_iff_ne, ne_eq]
  exact ⟨h13, h10⟩

theorem getElem_zero_eq_head (l : ByteList) : l[0]? = l.head? := by
  cases l <;> simp

theorem modifyHead_append_left (f : ByteList → ByteList) (l m : List ByteList)
    (h : l ≠ []) : (l ++ m).modifyHead f = l.modifyHead f ++ m := by
  cases l with
  | nil => exact absurd rfl h
  | cons x xs => rfl

/-- Splitting `a ++ 10 :: b` on LF, when `b` is LF-free, appends the single
piece `b` to the splitting of `a`. -/
theorem splitOnP_append_sep (p : Nat → Bool) (b : ByteList) (hsep : p 10 = true)
    (hb : ∀ x ∈ b, ¬ p x = true) (a : ByteList) :
    (a ++ 10 :: b).splitOnP p = a.splitOnP p ++ [b] := by
  induction a with
  | nil =>
    rw [List.nil_append, List.splitOnP_cons, if_pos hsep,
      List.splitOnP_eq_single p b (fun x hx => by simpa using hb x hx)]
    rfl
  | cons x xs ih =>
    rw [List.cons_append, List.splitOnP_cons, List.splitOnP_cons, ih]
    by_cases hx : p x
    · rw [if_pos hx, if_pos hx]
      rfl
    · rw [if_neg hx, if_neg hx,
        modifyHead_append_left _ _ _ (List.splitOnP_ne_nil p xs)]

/-- Every element of every piece of a splitting is an element of the split
list. -/
theorem mem_of_mem_splitOnP (p : Nat → Bool) :
    ∀ l piece : ByteList, piece ∈ l.splitOnP p → ∀ x ∈ piece, x ∈ l := by
  intro l
  induction l with
  | nil =>
    intro piece hp x hx
    rw [List.splitOnP_nil, List.mem_singleton] at hp
    subst hp
    exact absurd hx (List.not_mem_nil x)
  | cons y ys ih =>
    intro piece hp x hx
    rw [List.splitOnP_cons] at hp
    by_cases hy : p y
    · rw [if_pos hy] at hp
      rcases List.mem_cons.mp hp with rfl | hp'
      · exact absurd hx (List.not_mem_nil x)
      · exact List.mem_cons_of_mem y (ih piece hp' x hx)
    · rw [if_neg hy] at hp
      cases hsp : ys.splitOnP p with
      | nil => exact absurd hsp (List.splitOnP_ne_nil p ys)
      | cons hd t =>
        rw [hsp, List.modifyHead_cons] at hp
        rcases List.mem_cons.mp hp with rfl | hp'
        · rcases List.mem_cons.mp hx with rfl | hx'
          · exact List.mem_cons_self _ _
          · refine List.mem_cons_of_mem y (ih hd ?_ x hx')
            rw [hsp]
            exact List.mem_cons_self hd t
        · refine List.mem_cons_of_mem y (ih piece ?_ x hx)
          rw [hsp]
          exact List.mem_cons_of_mem hd hp'

theorem splitOn_eq_splitOnP (l : ByteList) :
    l.splitOn 10 = l.splitOnP (fun x => x == 10) := rfl

theorem dropCR_id (l : ByteList) (h13 : ∀ x ∈ l, x ≠ 13) : dropCR l = l := by
  unfold dropCR
  split
  · next hc => exact absurd rfl (h13 13 (List.mem_of_mem_getLast? (by simp [hc])))
  · rfl

/-- For a CR-free input that is non-empty and does not end in LF, the forward
scanner token stream is exactly `splitOn` at LF. -/
theorem forwardScanLines_eq_splitOn (d : ByteList) (hne : d ≠ [])
    (hlast : d.getLast? ≠ some 10) (h13 : ∀ x ∈ d, x ≠ 13) :
    forwardScanLines d = d.splitOn 10 := by
  unfold forwardScanLines
  rw [if_neg (by simp only [List.isEmpty_iff]; exact hne), if_neg hlast]
  have hmap : ∀ l : List ByteList, (∀ piece ∈ l, dropCR piece = piece) →
      l.map dropCR = l := by
    intro l
    induction l with
    | nil => intro _; rfl
    | cons a t iht =>
      intro h
      rw [List.map_cons, h a (List.mem_cons_self a t),
        iht (fun piece hp => h piece (List.mem_cons_of_mem a hp))]
  exact hmap _ (fun piece hp => dropCR_id piece
    (fun x hx => h13 x (mem_of_mem_splitOnP _ d piece hp x hx)))

theorem NewScanner_fields (n : Nat) (hn : n ≤ defaultBufSize) :
    (NewScanner n).bufSize = n ∧ (NewScanner n).start = n ∧ (NewScanner n).end_ = n := by
  have h : (if n < defaultBufSize then n else defaultBufSize) = n := by
    split
    · rfl
    · omega
  unfold NewScanner
  dsimp only
  exact ⟨h, h, h⟩

theorem runScanner_done (src : SourceBehavior) (fuel n : Nat) (s : Scanner)
    (h : s.done = true ∨ s.err ≠ none) : runScanner src fuel n s = [] := by
  cases n with
  | zero => rfl
  | succ n => simp only [runScanner, scan_terminal src fuel h]

/-- One `Scan` from a "pure" state (window at the front of the buffer, source
exhausted or not — no read happens since `start = 0`) whose window contains an
LF at right-most index `i > 0` (or with a non-trivial trimmed tail): the call
succeeds, publishes the trimmed tail as the token and shrinks the window to
`[0, i)`. -/
theorem scan_pure_found {s : Scanner} (src : SourceBehavior) (fl : Nat) {i : Nat}
    (hdone : s.done = false) (herr : s.err = none) (hstart : s.start = 0)
    (hend : s.end_ ≤ s.buf.length) (hsplit : s.split = ScanLines)
    (hlast : lastIndexByte (s.buf.take s.end_) 10 = some i)
    (hcond : 0 < i ∨ bytesTrim ((s.buf.take s.end_).drop i) ≠ none) :
    Scanner.Scan src (fl + 1) s =
      some (true, { s with scanCalled := true,
                           token := bytesTrim ((s.buf.take s.end_).drop i),
                           end_ := i }) := by
  unfold Scanner.Scan
  rw [if_neg (by simp [hdone, herr])]
  unfold scanLoop
  have hfp : scanFillPhase src { s with scanCalled := true } =
      some (.inr { s with scanCalled := true }) := by
    unfold scanFillPhase
    rw [if_neg (by simp [hstart])]
  have hsp := scanSplitPhase_scanLines_found
    (s := { s with scanCalled := true }) (i := i) hsplit hstart hend hlast hcond
  simp only [hfp, hsp]

/-- One `Scan` from a pure state over an exhausted source whose non-empty
window contains no LF: the call succeeds with the trimmed window as the final
token and marks the scanner finished. -/
theorem scan_pure_exhausted {s : Scanner} (src : SourceBehavior) (fl : Nat)
    (hdone : s.done = false) (herr : s.err = none) (hstart : s.start = 0)
    (hoff : s.rOffset = 0) (hpos : 0 < s.end_) (hsplit : s.split = ScanLines)
    (hlast : lastIndexByte (s.buf.take s.end_) 10 = none) :
    Scanner.Scan src (fl + 1) s =
      some (true, { s with scanCalled := true,
                           token := bytesTrim (slice s.buf s.start (s.end_ - s.start)),
                           done := true }) := by
  unfold Scanner.Scan
  rw [if_neg (by simp [hdone, herr])]
  unfold scanLoop
  have hfp : scanFillPhase src { s with scanCalled := true } =
      some (.inr { s with scanCalled := true }) := by
    unfold scanFillPhase
    rw [if_neg (by simp [hstart])]
  have hW : slice s.buf s.start (s.end_ - s.start) = s.buf.take s.end_ := by
    rw [hstart, slice_zero, Nat.sub_zero]
  have hsr : s.split (slice s.buf s.start (s.end_ - s.start)) = (0, none, none) := by
    rw [hsplit, hW]
    unfold ScanLines
    rw [hlast]
  have hlt : s.start < s.end_ := by omega
  have hsp := scanSplitPhase_exhausted_nonempty (s := { s with scanCalled := true })
    hsr hoff hlt
  simp only [hfp, hsp]

/-- Running the scanner from a pure state (window `[0, e)` over a CR-free
buffer whose first byte is not LF, source exhausted) yields exactly the
LF-separated pieces of the window in reverse order. -/
theorem runScanner_pure (B : ByteList) (src : SourceBehavior) (fl : Nat)
    (hB13 : ∀ x ∈ B, x ≠ 13) (hBhead : B.head? ≠ some 10) :
    ∀ k e : Nat, e ≤ k → 0 < e → e ≤ B.length → ∀ m : Nat, e < m → ∀ s : Scanner,
      s.done = false → s.err = none → s.start = 0 → s.rOffset = 0 →
      s.split = ScanLines → s.buf = B → s.end_ = e →
      runScanner src (fl + 1) m s = ((B.take e).splitOn 10).reverse := by
  intro k
  induction k with
  | zero =>
    intro e hek he _ _ _ _ _ _ _ _ _ _ _
    exact absurd he (by omega)
  | succ k ih =>
    intro e hek he hle m hm s hdone herr hstart hoff hsplit hbuf hend
    obtain ⟨m', rfl⟩ : ∃ m', m = m' + 1 := ⟨m - 1, by omega⟩
    cases hli : lastIndexByte (B.take e) 10 with
    | none =>
      have hli' : lastIndexByte (s.buf.take s.end_) 10 = none := by
        rw [hbuf, hend]; exact hli
      have hpos : 0 < s.end_ := by omega
      have hscan := scan_pure_exhausted src fl hdone herr hstart hoff hpos hsplit hli'
      simp only [runScanner, hscan]
      have h10 : (10 : Nat) ∉ B.take e := lastIndexByte_eq_none.mp hli
      have hterm : ∀ b ∈ B.take e, isTerm b = false := fun b hb =>
        isTerm_false_of (hB13 b (List.mem_of_mem_take hb)) (fun hb10 => h10 (hb10 ▸ hb))
      have hne' : B.take e ≠ [] := by
        intro hc
        have := congrArg List.length hc
        simp only [List.length_take, List.length_nil] at this
        omega
      have hW : slice s.buf s.start (s.end_ - s.start) = B.take e := by
        rw [hstart, slice_zero, Nat.sub_zero, hbuf, hend]
      have hText : Scanner.Text
          { s with
            scanCalled := true
            token := bytesTrim (slice s.buf s.start (s.end_ - s.start))
            done := true } = B.take e := by
        show (bytesTrim (slice s.buf s.start (s.end_ - s.start))).getD [] = B.take e
        rw [hW, bytesTrim_no (B.take e) hterm hne']
        rfl
      have hdone2 : runScanner src (fl + 1) m'
          { s with
            scanCalled := true
            token := bytesTrim (slice s.buf s.start (s.end_ - s.start))
            done := true } = [] :=
        runScanner_done src (fl + 1) m' _ (Or.inl rfl)
      rw [hText, hdone2]
      rw [splitOn_eq_splitOnP,
        List.splitOnP_eq_single _ _ (fun x hx => by
          simp only [beq_iff_eq]
          rintro rfl
          exact h10 hx)]
      rfl
    | some i =>
      have hipos : 0 < i := by
        rcases Nat.eq_zero_or_pos i with h0 | h0
        · subst h0
          have hg := lastIndexByte_getElem hli
          rw [List.getElem?_take, if_pos he, getElem_zero_eq_head B] at hg
          exact absurd hg hBhead
        · exact h0
      have hilt : i < e := by
        have := lastIndexByte_lt_length hli
        rw [List.length_take] at this
        omega
      have hli' : lastIndexByte (s.buf.take s.end_) 10 = some i := by
        rw [hbuf, hend]; exact hli
      have hlenle : s.end_ ≤ s.buf.length := by rw [hbuf, hend]; exact hle
      have hscan := scan_pure_found src fl hdone herr hstart hlenle hsplit hli'
        (Or.inl hipos)
      simp only [runScanner, hscan]
      have hlen10 : i < (B.take e).length := lastIndexByte_lt_length hli
      have hgival : (B.take e)[i] = 10 := by
        have hgi := lastIndexByte_getElem hli
        rw [List.getElem?_eq_getElem hlen10] at hgi
        exact Option.some.inj hgi
      have hdropd : (B.take e).drop i = 10 :: (B.take e).drop (i + 1) := by
        rw [List.drop_eq_getElem_cons hlen10, hgival]
      have hrest10 : (10 : Nat) ∉ (B.take e).drop (i + 1) :=
        lastIndexByte_not_mem_drop hli
      have hterm : ∀ b ∈ (B.take e).drop (i + 1), isTerm b = false := fun b hb =>
        isTerm_false_of (hB13 b (List.mem_of_mem_take (List.mem_of_mem_drop hb)))
          (fun hb10 => hrest10 (hb10 ▸ hb))
      have hText : Scanner.Text
          { s with
            scanCalled := true
            token := bytesTrim ((s.buf.take s.end_).drop i)
            end_ := i } = (B.take e).drop (i + 1) := by
        show (bytesTrim ((s.buf.take s.end_).drop i)).getD [] = (B.take e).drop (i + 1)
        rw [hbuf, hend, hdropd, bytesTrim_cons10 _ hterm]
        cases (B.take e).drop (i + 1) with
        | nil => rfl
        | cons a t => rfl
      have hIH := ih i (by omega) hipos (by omega) m' (by omega)
        { s with
          scanCalled := true
          token := bytesTrim ((s.buf.take s.end_).drop i)
          end_ := i }
        hdone herr hstart hoff hsplit hbuf rfl
      rw [hText, hIH]
      have hdecomp : B.take e = B.take i ++ 10 :: (B.take e).drop (i + 1) := by
        conv_lhs => rw [← List.take_append_drop i (B.take e)]
        rw [List.take_take, Nat.min_eq_left (le_of_lt hilt), hdropd]
      have hsplitdec : (B.take e).splitOn 10 =
          (B.take i).splitOn 10 ++ [(B.take e).drop (i + 1)] := by
        rw [splitOn_eq_splitOnP (B.take e), splitOn_eq_splitOnP (B.take i)]
        conv_lhs => rw [hdecomp]
        exact splitOnP_append_sep _ _ rfl
          (fun x hx => by
            simp only [beq_iff_eq]
            rintro rfl
            exact hrest10 hx)
          (B.take i)
      rw [hsplitdec]
      simp [List.reverse_append]

/-- C1 counterexample: over the two-byte input `"a\n"` (bytes `[97, 10]`),
with the source able to satisfy any read in one call, the reverse scanner
emits the token stream `[[], [97]]` — a spurious empty first token — while
the reverse of the conventional forward line scanner's stream is `[[97]]`.
The claimed byte-for-byte reversal therefore fails for inputs that end in a
line feed. -/
theorem reverse_line_stream_cex :
    runScanner (mkSource [97, 10] 0 (fun _ => 9999)) 1 3 (NewScanner 2) = [[], [97]] ∧
    (forwardScanLines [97, 10]).reverse = [[97]] :=
  ⟨by rfl, by rfl⟩

/-- C1 (amended): for every CR-free input that is non-empty, does not start
or end with a line feed and fits in the default buffer, and for every
per-read chunking behaviour of the source, successive `Scan`/`Bytes` calls
produce exactly the reverse of the conventional forward line scanner's token
stream. -/
theorem reverse_line_stream_matches_forward (d : ByteList) (chunk : Nat → Nat)
    (fl m : Nat) (h13 : ∀ x ∈ d, x ≠ 13) (hne : d ≠ [])
    (hhead : d.head? ≠ some 10) (hlast : d.getLast? ≠ some 10)
    (hlen : d.length ≤ defaultBufSize) (hm : d.length < m) :
    runScanner (mkSource d 0 chunk) (fl + 1) m (NewScanner d.length) =
      (forwardScanLines d).reverse := by
  have hpos : 0 < d.length := List.length_pos.mpr hne
  have hf := NewScanner_fields d.length hlen
  have hfill : ∃ S : Scanner,
      scanFillPhase (mkSource d 0 chunk) { NewScanner d.length with scanCalled := true } =
        some (.inr S) ∧
      S.done = false ∧ S.err = none ∧ S.start = 0 ∧ S.rOffset = 0 ∧
      S.split = ScanLines ∧ S.buf = d ∧ S.end_ = d.length ∧ S.scanCalled = true := by
    obtain ⟨c, hfp⟩ := scan_first_fill d 0 chunk
      { NewScanner d.length with scanCalled := true }
      rfl hf.2.1 rfl hf.1 rfl hpos (Nat.zero_le _)
    refine ⟨_, hfp, rfl, rfl, rfl, ?_, rfl, rfl, ?_, rfl⟩
    · show ({ NewScanner d.length with scanCalled := true } : Scanner).rOffset -
        ({ NewScanner d.length with scanCalled := true } : Scanner).start = 0
      have h1 : ({ NewScanner d.length with scanCalled := true } : Scanner).rOffset =
          d.length := rfl
      have h2 : ({ NewScanner d.length with scanCalled := true } : Scanner).start =
          d.length := hf.2.1
      omega
    · exact hf.2.2
  obtain ⟨S, hfp, hSdone, hSerr, hSstart, hSoff, hSsplit, hSbuf, hSend, hSsc⟩ := hfill
  have hsc : { S with scanCalled := true } = S := by rw [← hSsc]
  have hfp2 : scanFillPhase (mkSource d 0 chunk) S = some (.inr S) := by
    unfold scanFillPhase
    rw [if_neg (by simp [hSstart])]
  have hd0 : (NewScanner d.length).done = false := rfl
  have he0 : (NewScanner d.length).err = none := rfl
  have hstep : Scanner.Scan (mkSource d 0 chunk) (fl + 1) (NewScanner d.length) =
      Scanner.Scan (mkSource d 0 chunk) (fl + 1) S := by
    unfold Scanner.Scan
    rw [if_neg (by simp [hd0, he0]), if_neg (by simp [hSdone, hSerr])]
    rw [hsc]
    unfold scanLoop
    simp only [hfp, hfp2]
  obtain ⟨m', rfl⟩ : ∃ m', m = m' + 1 := ⟨m - 1, by omega⟩
  have hrun0 : runScanner (mkSource d 0 chunk) (fl + 1) (m' + 1) (NewScanner d.length) =
      runScanner (mkSource d 0 chunk) (fl + 1) (m' + 1) S := by
    simp only [runScanner]
    rw [hstep]
  rw [hrun0]
  rw [runScanner_pure d (mkSource d 0 chunk) fl h13 hhead d.length d.length (le_refl _)
    hpos (le_refl _) (m' + 1) (by omega) S hSdone hSerr hSstart hSoff hSsplit hSbuf hSend]
  rw [List.take_length, forwardScanLines_eq_splitOn d hne hlast h13]

/-- Witness for the amended C1 theorem at the input `"run\nforrest\nrun"`
with a slow source delivering one byte per read. -/
theorem reverse_line_stream_matches_forward_witness :
    (∀ x ∈ ([114, 117, 110, 10, 102, 111, 114, 114, 101, 115, 116, 10, 114, 117, 110] :
        ByteList), x ≠ 13) ∧
    ([114, 117, 110, 10, 102, 111, 114, 114, 101, 115, 116, 10, 114, 117, 110] :
        ByteList) ≠ [] ∧
    ([114, 117, 110, 10, 102, 111, 114, 114, 101, 115, 116, 10, 114, 117, 110] :
        ByteList).head? ≠ some 10 ∧
    ([114, 117, 110, 10, 102, 111, 114, 114, 101, 115, 116, 10, 114, 117, 110] :
        ByteList).getLast? ≠ some 10 ∧
    ([114, 117, 110, 10, 102, 111, 114, 114, 101, 115, 116, 10, 114, 117, 110] :
        ByteList).length ≤ defaultBufSize ∧
    runScanner
        (mkSource [114, 117, 110, 10, 102, 111, 114, 114, 101, 115, 116, 10, 114, 117, 110]
          0 (fun _ => 1)) 1 16 (NewScanner 15) =
      (forwardScanLines
        [114, 117, 110, 10, 102, 111, 114, 114, 101, 115, 116, 10, 114, 117, 110]).reverse :=
  ⟨by decide, by decide, by decide, by decide, by decide,
    reverse_line_stream_matches_forward
      [114, 117, 110, 10, 102, 111, 114, 114, 101, 115, 116, 10, 114, 117, 110]
      (fun _ => 1) 0 16 (by decide) (by decide) (by decide) (by decide) (by decide)
      (by decide)⟩

end RScanner
